import Mathlib

/-!
Verification development for the Servatio mirror-backup tool.

The definitions below are a shallow embedding of the repository's core:
`src/core/sync_logic.py` (the current engine), `src/app1.py` (the earlier
engine snapshot), `src/utils/helpers.py` (exclusion matching, file equality,
path validation) and `src/core/backup_task.py` (task (de)serialization).

Modelling conventions:
* A directory tree is `FSTree`; directory listings are association lists
  `List (String × FSTree)` in iteration order (Python's `iterdir` order).
* File modification times are integers in milliseconds, so Python's
  `abs(m1 - m2) < 1` (seconds, float) becomes `natDist m1 m2 < 1000`.
* I/O failures are driven by an explicit oracle `Env`: each predicate says
  which operation raises at which entry name.  Exceptions that the Python
  code does not catch surface as `Except.error`; caught ones only touch the
  log/metrics state, exactly as in the source.
* Recursion depth is an explicit fuel argument; exhausting it models
  Python's `RecursionError` (which `sync_recursive` does not catch).
-/

namespace Servatio

/-- A filesystem subtree: a regular file carries its byte size and its
modification time in milliseconds; a directory carries its children in
listing order. -/
inductive FSTree where
  | file (size : Nat) (mtime : Nat)
  | dir (children : List (String × FSTree))

abbrev Listing := List (String × FSTree)

/-- First entry with the given name (Python `dict` lookup on the listing). -/
def lookupName (n : String) : Listing → Option FSTree
  | [] => none
  | (m, t) :: rest => if m == n then some t else lookupName n rest

/-- Update the first entry with the given name, or append a new one. -/
def setName (n : String) (t : FSTree) : Listing → Listing
  | [] => [(n, t)]
  | (m, u) :: rest => if m == n then (n, t) :: rest else (m, u) :: setName n t rest

/-- Drop every entry with the given name. -/
def removeName (n : String) (l : Listing) : Listing :=
  l.filter (fun p => !(p.1 == n))

/-- Write an optional entry back into a listing: `some` stores, `none`
removes. -/
def setEntry (n : String) (e : Option FSTree) (l : Listing) : Listing :=
  match e with
  | some t => setName n t l
  | none => removeName n l

/-! ## Shell-glob matching (`fnmatch.fnmatch`)

`src/utils/helpers.py` line 19 matches the forward-slash relative path
against each pattern with `fnmatch.fnmatch`, whose `*` matches any run of
characters (including `/`), `?` matches one character, and `[...]` is a
character class (`!` negates; an unterminated `[` is a literal).  POSIX
`os.path.normcase` (the identity) is assumed, so matching is
case-sensitive.  The recursion decreases `s.length + p.length` at every
step, so the structural fuel `s.length + p.length + 1` is never
exhausted. -/

/-- Character-class membership: `a-b` ranges, otherwise literal members. -/
def classMember (c : Char) : List Char → Bool
  | a :: '-' :: b :: rest => (a ≤ c && c ≤ b) || classMember c rest
  | a :: rest => (c == a) || classMember c rest
  | [] => false

/-- Split a `[...]` class body: negation flag, member characters, rest of
the pattern.  Returns `none` when the class is unterminated (Python then
treats `[` as a literal).  Mirrors `fnmatch.translate`: a `]` directly
after `[` or `[!` is a member, not the terminator. -/
def parseClass (p : List Char) : Option (Bool × List Char × List Char) :=
  let (neg, q) := match p with
    | '!' :: q => (true, q)
    | q => (false, q)
  let rec scan (acc : List Char) : List Char → Option (List Char × List Char)
    | [] => none
    | ']' :: rest => if acc.isEmpty then scan (']' :: acc) rest else some (acc.reverse, rest)
    | c :: rest => scan (c :: acc) rest
  match scan [] q with
  | none => none
  | some (content, rest) => some (neg, content, rest)

/-- Glob matching on character lists, with structural fuel. -/
def fnmatchF : Nat → List Char → List Char → Bool
  | 0, _, _ => false
  | _ + 1, s, [] => s.isEmpty
  | fuel + 1, s, '*' :: p =>
    fnmatchF fuel s p ||
      (match s with
       | [] => false
       | _ :: s2 => fnmatchF fuel s2 ('*' :: p))
  | fuel + 1, s, '[' :: p =>
    match s with
    | [] => false
    | c :: s2 =>
      match parseClass p with
      | none => (c == '[') && fnmatchF fuel s2 p
      | some (neg, content, rest) =>
        (classMember c content != neg) && fnmatchF fuel s2 rest
  | fuel + 1, s, '?' :: p =>
    match s with
    | [] => false
    | _ :: s2 => fnmatchF fuel s2 p
  | fuel + 1, s, pc :: p =>
    match s with
    | [] => false
    | c :: s2 => (pc == c) && fnmatchF fuel s2 p

/-- `fnmatch.fnmatch(s, p)` under POSIX case rules. -/
def fnmatch (s p : String) : Bool :=
  fnmatchF (s.length + p.length + 1) s.toList p.toList

/-- Forward-slash join of relative path segments (`PurePath.as_posix`);
the empty relative path prints as `"."` as in Python. -/
def asPosix (segs : List String) : String :=
  match segs with
  | [] => "."
  | _ => String.intercalate "/" segs

/-- `path.relative_to(base)` on segment lists: strip `base` as a leading
segment run, or fail (Python raises `ValueError`, which `is_excluded`
turns into `False`). -/
def stripBase : List String → List String → Option (List String)
  | [], p => some p
  | b :: bs, q :: ps => if b == q then stripBase bs ps else none
  | _ :: _, [] => none

/-- `helpers.is_excluded(path, exclude_patterns, base_path)`: the relative
path (forward-slash form) must match some pattern either literally or with
a `**/` prefix; an entry outside `base` is never excluded. -/
def is_excluded (path : List String) (patterns : List String) (base : List String) : Bool :=
  match stripBase base path with
  | none => false
  | some rel =>
    patterns.any (fun pat => fnmatch (asPosix rel) pat || fnmatch (asPosix rel) ("**/" ++ pat))

/-! ## Run state, failure oracle and uncaught exceptions

`BackupMetrics` (src/utils/metrics.py) is mutated by the engine only through
`copied_files` and `errors`; `progress` counts `update_progress()` calls and
`events` records the `log_callback` lines as structured events, newest
first. -/

/-- One logged operation of a run (argument: the entry name at the current
directory level — `sync_logic.py` only ever operates on the top level). -/
inductive Event where
  | copiedFile (name : String)
  | copiedTree (name : String)
  | copyFailed (name : String)
  | removedEntry (name : String)
  | removeFailed (name : String)
  | srcMissing
  | listFailed
deriving DecidableEq

/-- Mutable run state: the metrics counters, the progress-callback count and
the log, newest event first. -/
structure St where
  copied : Nat
  errors : Nat
  progress : Nat
  events : List Event
deriving DecidableEq

def St.init : St := ⟨0, 0, 0, []⟩

/-- Failure oracle: which filesystem operations raise, keyed by the entry
name at the current level.  `listFail` / `mkdirFail` are per-call (the
engine only lists and creates the top-level pair). -/
structure Env where
  copyFail : String → Bool
  removeFail : String → Bool
  statFail : String → Bool
  listFail : Bool
  mkdirFail : Bool

/-- The environment in which no operation fails. -/
def envOk : Env := ⟨fun _ => false, fun _ => false, fun _ => false, false, false⟩

/-- Exceptions that escape `sync_recursive` (nothing in the source catches
these): `dst.mkdir` at line 19, `Path.stat` inside `files_are_equal`
(helpers lines 26–27), Python's `RecursionError`, and OS errors outside the
caught classes. -/
inductive PyErr where
  | mkdirFailed
  | statFailed
  | recursionDepth
  | osError
deriving DecidableEq

/-! ## The per-entry primitives of `sync_logic.py` -/

/-- `safe_copy` (sync_logic.py lines 51–64).  A directory source goes
through `shutil.copytree(..., dirs_exist_ok=True)`: at every call site the
destination entry is either absent (the fresh recursive copy of a value
tree is the tree itself) or a leftover file after a failed removal (then
`copytree`'s `makedirs` raises `FileExistsError`, caught by the handler).
A file source goes through `shutil.copy2`, which preserves size and mtime
and is the only path that touches `copied_files` and `update_progress`;
`copy2` onto an existing directory raises and is caught.  Every failure
increments `errors`; the function never raises. -/
def safe_copy (env : Env) (n : String) (srcT : FSTree) (dstE : Option FSTree) (st : St) :
    Option FSTree × St :=
  if env.copyFail n then
    (dstE, { st with errors := st.errors + 1, events := .copyFailed n :: st.events })
  else
    match srcT with
    | .file s m =>
      match dstE with
      | some (.dir dc) =>
        (some (.dir dc), { st with errors := st.errors + 1, events := .copyFailed n :: st.events })
      | _ =>
        (some (.file s m),
          { st with copied := st.copied + 1, progress := st.progress + 1,
                    events := .copiedFile n :: st.events })
    | .dir cs =>
      match dstE with
      | some (.file s m) =>
        (some (.file s m), { st with errors := st.errors + 1, events := .copyFailed n :: st.events })
      | _ =>
        -- destination absent: the copied subtree equals the source subtree
        (some (.dir cs), { st with events := .copiedTree n :: st.events })

/-- `safe_remove` (sync_logic.py lines 66–75): `rmtree`/`unlink`, failures
(including removing a vanished entry) are caught and counted. -/
def safe_remove (env : Env) (n : String) (entry : Option FSTree) (st : St) : Bool × St :=
  if env.removeFail n || entry.isNone then
    (false, { st with errors := st.errors + 1, events := .removeFailed n :: st.events })
  else
    (true, { st with events := .removedEntry n :: st.events })

/-- `st_size` and `st_mtime` of an entry.  The engine only ever stats
regular files; a directory's metadata is not modelled. -/
def statOf : FSTree → Nat × Nat
  | .file s m => (s, m)
  | .dir _ => (0, 0)

/-- Absolute difference of two timestamps. -/
def natDist (a b : Nat) : Nat := if a ≤ b then b - a else a - b

/-- `helpers.files_are_equal(file1, file2)`: `False` when `file2` does not
exist (checked before any `stat`), otherwise equal sizes and mtimes less
than one second (1000 ms) apart.  The `stat` calls sit outside any
`try`, so a stat failure escapes as an exception. -/
def files_are_equal (env : Env) (n : String) (f1 : Nat × Nat) (f2 : Option FSTree) :
    Except PyErr Bool :=
  match f2 with
  | none => .ok false
  | some t =>
    if env.statFail n then .error .statFailed
    else .ok (f1.1 == (statOf t).1 && natDist f1.2 (statOf t).2 < 1000)

/-! ## The engine of `sync_logic.py`

`sync_recursive(task, metrics, log_callback, update_progress, should_delete)`
always operates on `task.source`/`task.destination`: its "recursive" call at
line 38 passes the **same task**, so every level of recursion re-enters the
top-level pair.  The state threads the live top-level destination listing;
`dst_items` membership tests use the listing snapshot taken before the
loop, while kind tests and copies act on the live tree, as `pathlib` paths
do. -/

/-- The type of the engine's recursive entry point. -/
abbrev SyncK := Option FSTree → Option FSTree → St → Except PyErr (Option FSTree × St)

/-- Children of an optional tree, with a fallback (used only after the
line-38 recursion, whose result is always an error in reachable runs). -/
def childrenOrD (d : Option FSTree) (fallback : Listing) : Listing :=
  match d with
  | some (.dir l) => l
  | _ => fallback

/-- The `for name, src_path in src_items.items()` loop (sync_logic.py lines
31–44).  `recurse` is the engine itself one recursion level down; `snap` is
the destination-listing snapshot; `cur` is the live destination listing. -/
def loopItems (recurse : SyncK) (env : Env) (srcTop : FSTree) (snap : List String) :
    List (String × FSTree) → Listing → St → Except PyErr (Listing × St)
  | [], cur, st => .ok (cur, st)
  | (n, sc) :: rest, cur, st =>
    if !(snap.contains n) then
      -- absent at destination: copy
      let r := safe_copy env n sc (lookupName n cur) st
      loopItems recurse env srcTop snap rest (setEntry n r.1 cur) r.2
    else
      match sc, lookupName n cur with
      | .dir _, some (.dir _) =>
        -- both directories: line 38 recurses on the SAME task (the
        -- top-level source and the live top-level destination)
        match recurse (some srcTop) (some (.dir cur)) st with
        | .error e => .error e
        | .ok (dst', st') =>
          loopItems recurse env srcTop snap rest (childrenOrD dst' cur) st'
      | .file s m, some (.file s2 m2) =>
        match files_are_equal env n (s, m) (some (.file s2 m2)) with
        | .error e => .error e
        | .ok true => loopItems recurse env srcTop snap rest cur st
        | .ok false =>
          let r := safe_copy env n (.file s m) (some (.file s2 m2)) st
          loopItems recurse env srcTop snap rest (setEntry n r.1 cur) r.2
      | _, _ =>
        -- mismatched kinds (or the entry vanished): remove, then copy
        let r1 := safe_remove env n (lookupName n cur) st
        let r2 := safe_copy env n sc (if r1.1 then none else lookupName n cur) r1.2
        loopItems recurse env srcTop snap rest (setEntry n r2.1 cur) r2.2

/-- The `should_delete` pass (sync_logic.py lines 46–49): iterate the raw
destination-listing snapshot and remove every name absent from the
exclusion-filtered source listing. -/
def deletePass (env : Env) (srcNames : List String) :
    List String → Listing → St → Listing × St
  | [], cur, st => (cur, st)
  | n :: rest, cur, st =>
    if srcNames.contains n then deletePass env srcNames rest cur st
    else
      let r := safe_remove env n (lookupName n cur) st
      deletePass env srcNames rest (if r.1 then removeName n cur else cur) r.2

/-- `sync_recursive` of sync_logic.py (lines 10–49).  `base` is the task's
source path as segments (fixed across the self-recursion), `patterns` the
exclusion list, `should_delete` the delete-extra flag.  The fuel counts
Python stack frames; `0` is `RecursionError`. -/
def syncCore (env : Env) (base : List String) (patterns : List String) (should_delete : Bool) :
    Nat → Option FSTree → Option FSTree → St → Except PyErr (Option FSTree × St)
  | 0, _, _, _ => .error .recursionDepth
  | fuel + 1, src, dst, st =>
    match src with
    | none =>
      -- line 15: source does not exist — log and return
      .ok (dst, { st with events := .srcMissing :: st.events })
    | some srcT =>
      -- line 19: dst.mkdir(parents=True, exist_ok=True), outside any try:
      -- fails when the destination exists as a file, or on an I/O error
      if (match dst with | some (.file _ _) => true | _ => false) || env.mkdirFail then
        .error .mkdirFailed
      else
        let dcs := childrenOrD dst []
        -- lines 21–29: list both sides; PermissionError/OSError are caught
        if env.listFail then
          .ok (some (.dir dcs), { st with events := .listFailed :: st.events })
        else
          match srcT with
          | .file _ _ =>
            -- iterdir on a non-directory raises OSError, caught at line 27
            .ok (some (.dir dcs), { st with events := .listFailed :: st.events })
          | .dir scs =>
            let items := scs.filter (fun p => !(is_excluded (base ++ [p.1]) patterns base))
            let snap := dcs.map Prod.fst
            match loopItems (syncCore env base patterns should_delete fuel)
                env srcT snap items dcs st with
            | .error e => .error e
            | .ok (cur, st') =>
              if should_delete then
                let r := deletePass env (items.map Prod.fst) snap cur st'
                .ok (some (.dir r.1), r.2)
              else
                .ok (some (.dir cur), st')

/-! ## The engine of `app1.py` (the earlier snapshot)

`app1.py`'s `sync_recursive(src, dst, exclude_patterns, ...)` (lines
202–234) differs from `sync_logic.py` in one decisive place: at line 223
the both-directories case recurses into the child pair
`(src_path, existing_dst)` with the same patterns and delete flag.  Only
the no-failure environment is modelled (claim C2 exercises successful
operations only); its `safe_copy`/`safe_remove` touch no metrics, so the
model returns just the resulting destination tree.  Each level computes
relative paths against its own `src`, so the exclusion test always sees
the bare child name. -/

/-- The loop of app1's `sync_recursive` (lines 216–229), happy path.
`recurse` is the engine one Python stack frame down. -/
def app1Loop (recurse : Option FSTree → Option FSTree → Except PyErr (Option FSTree))
    (snap : List String) :
    List (String × FSTree) → Listing → Except PyErr Listing
  | [], cur => .ok cur
  | (n, sc) :: rest, cur =>
    if !(snap.contains n) then
      app1Loop recurse snap rest (setName n sc cur)
    else
      match sc, lookupName n cur with
      | .dir _, some (.dir dc) =>
        -- line 223: recurse into the CHILD pair
        match recurse (some sc) (some (.dir dc)) with
        | .error e => .error e
        | .ok d' => app1Loop recurse snap rest (setEntry n d' cur)
      | .file s m, some (.file s2 m2) =>
        if s == s2 && natDist m m2 < 1000 then app1Loop recurse snap rest cur
        else app1Loop recurse snap rest (setName n (.file s m) cur)
      | _, _ =>
        app1Loop recurse snap rest (setName n sc cur)

/-- app1's deletion pass (lines 231–234), happy path. -/
def app1Delete (srcNames : List String) : List String → Listing → Listing
  | [], cur => cur
  | n :: rest, cur =>
    if srcNames.contains n then app1Delete srcNames rest cur
    else app1Delete srcNames rest (removeName n cur)

/-- app1's `sync_recursive` (lines 202–234), happy path, fuelled by the
Python stack depth. -/
def syncApp1 (patterns : List String) (should_delete : Bool) :
    Nat → Option FSTree → Option FSTree → Except PyErr (Option FSTree)
  | 0, _, _ => .error .recursionDepth
  | fuel + 1, src, dst =>
    match src with
    | none => .ok dst
    | some srcT =>
      match dst with
      | some (.file _ _) => .error .mkdirFailed
      | _ =>
        let dcs := childrenOrD dst []
        match srcT with
        | .file _ _ =>
          -- iterdir raises NotADirectoryError; app1 line 212 catches only
          -- PermissionError, so this OSError escapes
          .error .osError
        | .dir scs =>
          let items := scs.filter (fun p => !(is_excluded [p.1] patterns []))
          let snap := dcs.map Prod.fst
          match app1Loop (syncApp1 patterns should_delete fuel) snap items dcs with
          | .error e => .error e
          | .ok cur =>
            if should_delete then
              .ok (some (.dir (app1Delete (items.map Prod.fst) snap cur)))
            else
              .ok (some (.dir cur))

/-! ## `helpers.validate_paths` (lines 30–38)

Paths are modelled by what the function inspects: the rendered string
`str(path)` as a character list, the `is_absolute()` flag, and the
rendered `str(path.resolve())` (resolution is filesystem state, supplied
as data). -/

/-- The data of a `pathlib.Path` as seen by `validate_paths`. -/
structure PyPath where
  s : List Char
  absolute : Bool
  resolved : List Char

/-- `ValueError` messages raised by `validate_paths` (identified by which
check fired). -/
inductive ValidationError where
  | notAbsolute
  | sameLocation
  | driveRoot
deriving DecidableEq

/-- `dangerous = [f"{d}:\\" for d in "CDEFGHIJKLMNOPQRSTUVWXYZ"]` (line 35):
note the comprehension starts at `C` and every entry ends in a
backslash. -/
def dangerous : List (List Char) :=
  "CDEFGHIJKLMNOPQRSTUVWXYZ".toList.map (fun d => [d, ':', '\\'])

/-- `str.rstrip("\\/")`: drop trailing backslashes and forward slashes. -/
def rstripSlashes (s : List Char) : List Char :=
  (s.reverse.dropWhile (fun c => c == '\\' || c == '/')).reverse

/-- `str.upper()` on a character list. -/
def upperL (s : List Char) : List Char := s.map Char.toUpper

/-- The line-37 membership test: is the cleaned destination one of the
upper-cased dangerous roots? -/
def isDriveRootHit (dstS : List Char) : Bool :=
  (dangerous.map upperL).contains (upperL (rstripSlashes dstS))

/-- `helpers.validate_paths(src, dst)`: absolute, distinct once resolved,
and not a drive root. -/
def validate_paths (src dst : PyPath) : Except ValidationError Unit :=
  if !src.absolute || !dst.absolute then .error .notAbsolute
  else if src.resolved == dst.resolved then .error .sameLocation
  else if isDriveRootHit dst.s then .error .driveRoot
  else .ok ()

/-! ## `BackupTask` (src/core/backup_task.py)

`to_dict` serializes `exclude_patterns` through `json.dumps` and
`from_dict` reads it back with `json.loads`; a JSON round-trip of a list
of strings is the identity, so the serialized field is modelled by the
list it denotes.  `source`/`destination` go through `str(Path(...))`,
the identity on an already-normalized path value, modelled as `String`.
`delete_extra` is serialized as `str(bool)` and parsed with
`.lower() == "true"`. -/

/-- `DEFAULT_EXCLUDE_PATTERNS` (backup_task.py lines 6–9). -/
def DEFAULT_EXCLUDE_PATTERNS : List String :=
  ["*.tmp", "*.log", ".git", ".gitignore", "__pycache__", "*.pyc",
   ".DS_Store", "Thumbs.db", "desktop.ini", "$RECYCLE.BIN", "System Volume Information"]

/-- A `BackupTask` object's attributes. -/
structure BackupTask where
  name : String
  source : String
  destination : String
  exclude_patterns : List String
  delete_extra : Bool
deriving DecidableEq

/-- `BackupTask.__init__`: `exclude_patterns or DEFAULT_EXCLUDE_PATTERNS.copy()`
replaces a falsy (empty or absent) pattern list with the built-in set. -/
def BackupTask.create (name source destination : String)
    (patterns : List String) (delete : Bool) : BackupTask :=
  ⟨name, source, destination,
   if patterns.isEmpty then DEFAULT_EXCLUDE_PATTERNS else patterns, delete⟩

/-- The dictionary produced by `BackupTask.to_dict` (lines 19–26); the
`exclude_patterns` value holds the string list its JSON text denotes. -/
structure TaskDict where
  name : String
  source : String
  destination : String
  exclude_patterns : List String
  delete_extra : String
deriving DecidableEq

def BackupTask.to_dict (t : BackupTask) : TaskDict :=
  ⟨t.name, t.source, t.destination, t.exclude_patterns,
   if t.delete_extra then "True" else "False"⟩

/-- `str.lower()`, modelled characterwise (the serialized booleans only
contain basic latin letters). -/
def pyLower (s : String) : String := String.mk (s.toList.map Char.toLower)

/-- `data.get("delete_extra", "True").lower() == "true"` (line 35). -/
def parseDeleteExtra (s : String) : Bool := pyLower s == "true"

/-- `BackupTask.from_dict` (lines 28–36): feeds the parsed fields back
through `__init__`. -/
def BackupTask.from_dict (d : TaskDict) : BackupTask :=
  BackupTask.create d.name d.source d.destination d.exclude_patterns
    (parseDeleteExtra d.delete_extra)

/-- An entry is a regular file. -/
def isFileT : FSTree → Bool
  | .file _ _ => true
  | .dir _ => false

/-- Does this log event record a copy attempt (successful file copy,
whole-tree copy, or failed copy) of the entry named `n`? -/
def copyCallAt (n : String) : Event → Bool
  | .copiedFile m => m == n
  | .copiedTree m => m == n
  | .copyFailed m => m == n
  | _ => false

/-- Number of copy attempts recorded for the entry named `n` in a run
state's log. -/
def copyCount (n : String) (st : St) : Nat :=
  st.events.countP (fun e => copyCallAt n e)

/-! # Supporting lemmas -/

lemma head?_dropWhile_eq_false (p : Char → Bool) :
    ∀ (l : List Char) (c : Char), (l.dropWhile p).head? = some c → p c = false := by
  intro l
  induction l with
  | nil => intro c h; simp [List.dropWhile] at h
  | cons a t ih =>
    intro c h
    rw [List.dropWhile_cons] at h
    cases hpa : p a with
    | true => rw [hpa] at h; simp at h; exact ih c h
    | false =>
      rw [hpa] at h
      simp at h
      rw [← h]
      exact hpa

lemma toUpper_backslash (c : Char) (h : Char.toUpper c = '\\') : c = '\\' := by
  unfold Char.toUpper at h
  simp only at h
  by_cases hr : c.toNat ≥ 97 ∧ c.toNat ≤ 122
  · rw [if_pos hr] at h
    exfalso
    have hv : (c.toNat - 32).isValidChar := Or.inl (by omega)
    rw [Char.ofNat, dif_pos hv] at h
    have h2 := congrArg Char.toNat h
    have h3 : (Char.ofNatAux (c.toNat - 32) hv).toNat = c.toNat - 32 := rfl
    have h4 : Char.toNat '\\' = 92 := rfl
    omega
  · rw [if_neg hr] at h
    exact h

/-- The cleaned destination string of line 36 can never end in a
backslash. -/
lemma upper_rstrip_getLast_ne (s : List Char) :
    (upperL (rstripSlashes s)).getLast? ≠ some '\\' := by
  intro h
  rw [upperL, List.getLast?_map, rstripSlashes, List.getLast?_reverse] at h
  cases hh : ((s.reverse.dropWhile (fun c => c == '\\' || c == '/')).head?) with
  | none => rw [hh] at h; simp at h
  | some c =>
    rw [hh] at h
    simp only [Option.map_some'] at h
    have hup : Char.toUpper c = '\\' := by
      have := congrArg (fun o => o.getD 'x') h
      simpa using this
    have hc := head?_dropWhile_eq_false _ _ _ hh
    rw [toUpper_backslash c hup] at hc
    simp at hc

/-- Every upper-cased dangerous root ends in a backslash. -/
lemma dangerousUpper_getLast :
    ∀ l ∈ dangerous.map upperL, l.getLast? = some '\\' := by decide

lemma lookupName_setName_self (n : String) (t : FSTree) (l : Listing) :
    lookupName n (setName n t l) = some t := by
  induction l with
  | nil => simp [setName, lookupName]
  | cons p rest ih =>
    obtain ⟨m, u⟩ := p
    by_cases h : m = n
    · subst h; simp [setName, lookupName]
    · simp [setName, lookupName, h, ih]

lemma lookupName_setName_ne (n k : String) (t : FSTree) (l : Listing) (h : ¬k = n) :
    lookupName k (setName n t l) = lookupName k l := by
  have h' : ¬n = k := fun hh => h hh.symm
  induction l with
  | nil => simp [setName, lookupName, h']
  | cons p rest ih =>
    obtain ⟨m, u⟩ := p
    by_cases hm : m = n
    · subst hm
      simp [setName, lookupName, h']
    · simp [setName, lookupName, hm, ih]

lemma lookupName_removeName_self (n : String) (l : Listing) :
    lookupName n (removeName n l) = none := by
  induction l with
  | nil => rfl
  | cons p rest ih =>
    obtain ⟨m, u⟩ := p
    by_cases h : m = n
    · subst h; simpa [removeName, lookupName] using ih
    · simpa [removeName, lookupName, h] using ih

lemma lookupName_removeName_ne (n k : String) (l : Listing) (h : ¬k = n) :
    lookupName k (removeName n l) = lookupName k l := by
  induction l with
  | nil => rfl
  | cons p rest ih =>
    obtain ⟨m, u⟩ := p
    by_cases hm : m = n
    · subst hm
      have h' : ¬m = k := fun hh => h hh.symm
      simpa [removeName, lookupName, h'] using ih
    · by_cases hk : m = k
      · subst hk; simp [removeName, lookupName, hm, lookupName_removeName_self]
      · simpa [removeName, lookupName, hm, hk] using ih

lemma lookupName_setEntry_self (n : String) (e : Option FSTree) (l : Listing) :
    lookupName n (setEntry n e l) = e := by
  cases e with
  | none => exact lookupName_removeName_self n l
  | some t => exact lookupName_setName_self n t l

lemma lookupName_setEntry_ne (n k : String) (e : Option FSTree) (l : Listing) (h : ¬k = n) :
    lookupName k (setEntry n e l) = lookupName k l := by
  cases e with
  | none => exact lookupName_removeName_ne n k l h
  | some t => exact lookupName_setName_ne n k t l h

lemma lookupName_isSome_eq_contains (n : String) (l : Listing) :
    (lookupName n l).isSome = (l.map Prod.fst).contains n := by
  induction l with
  | nil => rfl
  | cons p rest ih =>
    obtain ⟨m, u⟩ := p
    by_cases h : m = n
    · subst h; simp [lookupName, List.contains_cons]
    · have h' : ¬n = m := fun hh => h hh.symm
      simp [lookupName, List.contains_cons, h, h', ih]

lemma safe_copy_file_ok (n : String) (s m : Nat) (dstE : Option FSTree)
    (hd : ∀ dc, ¬dstE = some (.dir dc)) (st : St) :
    safe_copy envOk n (.file s m) dstE st
      = (some (.file s m),
         { st with copied := st.copied + 1, progress := st.progress + 1,
                   events := .copiedFile n :: st.events }) := by
  cases dstE with
  | none => rfl
  | some t =>
    cases t with
    | file s2 m2 => rfl
    | dir dc => exact absurd rfl (hd dc)

lemma safe_remove_some_ok (n : String) (t : FSTree) (st : St) :
    safe_remove envOk n (some t) st
      = (true, { st with events := .removedEntry n :: st.events }) := rfl

/-! Step equations for `loopItems` and `syncCore`, one per branch of the
source's per-entry case analysis. -/

lemma loopItems_cons_absent (recurse : SyncK) (env : Env) (srcTop : FSTree)
    (snap : List String) (n : String) (sc : FSTree) (rest : List (String × FSTree))
    (cur : Listing) (st : St) (h : snap.contains n = false) :
    loopItems recurse env srcTop snap ((n, sc) :: rest) cur st
      = loopItems recurse env srcTop snap rest
          (setEntry n (safe_copy env n sc (lookupName n cur) st).1 cur)
          (safe_copy env n sc (lookupName n cur) st).2 := by
  simp only [loopItems, h]
  rfl

lemma loopItems_cons_dirs (recurse : SyncK) (env : Env) (srcTop : FSTree)
    (snap : List String) (n : String) (sa : Listing) (rest : List (String × FSTree))
    (cur : Listing) (st : St) (dc : Listing)
    (hsnap : snap.contains n = true) (hlk : lookupName n cur = some (.dir dc)) :
    loopItems recurse env srcTop snap ((n, .dir sa) :: rest) cur st
      = match recurse (some srcTop) (some (.dir cur)) st with
        | .error e => .error e
        | .ok (dst', st') =>
          loopItems recurse env srcTop snap rest (childrenOrD dst' cur) st' := by
  simp only [loopItems, hsnap, hlk]
  rfl

lemma loopItems_cons_files_statfail (recurse : SyncK) (env : Env) (srcTop : FSTree)
    (snap : List String) (n : String) (s m : Nat) (rest : List (String × FSTree))
    (cur : Listing) (st : St) (s2 m2 : Nat)
    (hsnap : snap.contains n = true) (hlk : lookupName n cur = some (.file s2 m2))
    (hstat : env.statFail n = true) :
    loopItems recurse env srcTop snap ((n, .file s m) :: rest) cur st
      = .error .statFailed := by
  simp only [loopItems, hsnap, hlk, files_are_equal, hstat]
  rfl

lemma loopItems_cons_files_eq (recurse : SyncK) (env : Env) (srcTop : FSTree)
    (snap : List String) (n : String) (s m : Nat) (rest : List (String × FSTree))
    (cur : Listing) (st : St) (s2 m2 : Nat)
    (hsnap : snap.contains n = true) (hlk : lookupName n cur = some (.file s2 m2))
    (hstat : env.statFail n = false)
    (hb : (s == s2 && decide (natDist m m2 < 1000)) = true) :
    loopItems recurse env srcTop snap ((n, .file s m) :: rest) cur st
      = loopItems recurse env srcTop snap rest cur st := by
  simp only [loopItems, hsnap, hlk, files_are_equal, statOf, hstat]
  rw [show (s == (s2, m2).1 && decide (natDist m (s2, m2).2 < 1000)) = true from hb]
  rfl

lemma loopItems_cons_files_ne (recurse : SyncK) (env : Env) (srcTop : FSTree)
    (snap : List String) (n : String) (s m : Nat) (rest : List (String × FSTree))
    (cur : Listing) (st : St) (s2 m2 : Nat)
    (hsnap : snap.contains n = true) (hlk : lookupName n cur = some (.file s2 m2))
    (hstat : env.statFail n = false)
    (hb : (s == s2 && decide (natDist m m2 < 1000)) = false) :
    loopItems recurse env srcTop snap ((n, .file s m) :: rest) cur st
      = loopItems recurse env srcTop snap rest
          (setEntry n (safe_copy env n (.file s m) (some (.file s2 m2)) st).1 cur)
          (safe_copy env n (.file s m) (some (.file s2 m2)) st).2 := by
  simp only [loopItems, hsnap, hlk, files_are_equal, statOf, hstat]
  rw [show (s == (s2, m2).1 && decide (natDist m (s2, m2).2 < 1000)) = false from hb]
  rfl

lemma loopItems_cons_file_dir (recurse : SyncK) (env : Env) (srcTop : FSTree)
    (snap : List String) (n : String) (s m : Nat) (rest : List (String × FSTree))
    (cur : Listing) (st : St) (dc : Listing)
    (hsnap : snap.contains n = true) (hlk : lookupName n cur = some (.dir dc)) :
    loopItems recurse env srcTop snap ((n, .file s m) :: rest) cur st
      = loopItems recurse env srcTop snap rest
          (setEntry n
            (safe_copy env n (.file s m)
              (if (safe_remove env n (lookupName n cur) st).1 then none else lookupName n cur)
              (safe_remove env n (lookupName n cur) st).2).1 cur)
          (safe_copy env n (.file s m)
            (if (safe_remove env n (lookupName n cur) st).1 then none else lookupName n cur)
            (safe_remove env n (lookupName n cur) st).2).2 := by
  simp only [loopItems, hsnap, hlk]
  rfl

lemma loopItems_cons_live_missing (recurse : SyncK) (env : Env) (srcTop : FSTree)
    (snap : List String) (n : String) (sc : FSTree) (rest : List (String × FSTree))
    (cur : Listing) (st : St)
    (hsnap : snap.contains n = true) (hlk : lookupName n cur = none) :
    loopItems recurse env srcTop snap ((n, sc) :: rest) cur st
      = loopItems recurse env srcTop snap rest
          (setEntry n
            (safe_copy env n sc
              (if (safe_remove env n (lookupName n cur) st).1 then none else lookupName n cur)
              (safe_remove env n (lookupName n cur) st).2).1 cur)
          (safe_copy env n sc
            (if (safe_remove env n (lookupName n cur) st).1 then none else lookupName n cur)
            (safe_remove env n (lookupName n cur) st).2).2 := by
  cases sc <;> (simp only [loopItems, hsnap, hlk]; rfl)

lemma loopItems_cons_dir_file (recurse : SyncK) (env : Env) (srcTop : FSTree)
    (snap : List String) (n : String) (sa : Listing) (rest : List (String × FSTree))
    (cur : Listing) (st : St) (s2 m2 : Nat)
    (hsnap : snap.contains n = true) (hlk : lookupName n cur = some (.file s2 m2)) :
    loopItems recurse env srcTop snap ((n, .dir sa) :: rest) cur st
      = loopItems recurse env srcTop snap rest
          (setEntry n
            (safe_copy env n (.dir sa)
              (if (safe_remove env n (lookupName n cur) st).1 then none else lookupName n cur)
              (safe_remove env n (lookupName n cur) st).2).1 cur)
          (safe_copy env n (.dir sa)
            (if (safe_remove env n (lookupName n cur) st).1 then none else lookupName n cur)
            (safe_remove env n (lookupName n cur) st).2).2 := by
  simp only [loopItems, hsnap, hlk]
  rfl

lemma syncCore_succ_dir (env : Env) (base patterns : List String) (del : Bool)
    (fuel : Nat) (scs dcs : Listing) (st : St)
    (hmk : env.mkdirFail = false) (hlist : env.listFail = false) :
    syncCore env base patterns del (fuel + 1) (some (.dir scs)) (some (.dir dcs)) st
      = match loopItems (syncCore env base patterns del fuel) env (.dir scs)
            (dcs.map Prod.fst)
            (scs.filter (fun p => !(is_excluded (base ++ [p.1]) patterns base))) dcs st with
        | .error e => .error e
        | .ok (cur, st') =>
          if del then
            .ok (some (.dir (deletePass env
                    ((scs.filter (fun p => !(is_excluded (base ++ [p.1]) patterns base))).map
                      Prod.fst)
                    (dcs.map Prod.fst) cur st').1),
                 (deletePass env
                    ((scs.filter (fun p => !(is_excluded (base ++ [p.1]) patterns base))).map
                      Prod.fst)
                    (dcs.map Prod.fst) cur st').2)
          else .ok (some (.dir cur), st') := by
  simp only [syncCore, childrenOrD, hmk, hlist]
  rfl

/-- First-run loop over a flat (all-files) source listing in the
no-failure environment: the loop succeeds, leaves every name outside the
item list untouched, and afterwards every item has a same-size,
same-second destination file. -/
lemma loop_flat_run (recurse : SyncK) (srcTop : FSTree) (dcs : Listing) :
    ∀ (items cur : Listing) (st : St),
      (∀ p ∈ items, isFileT p.2 = true) →
      (items.map Prod.fst).Nodup →
      (∀ p ∈ items, lookupName p.1 cur = lookupName p.1 dcs) →
      ∃ cur' st',
        loopItems recurse envOk srcTop (dcs.map Prod.fst) items cur st = .ok (cur', st') ∧
        (∀ p ∈ items, ∃ s m s' m', p.2 = .file s m ∧
            lookupName p.1 cur' = some (.file s' m') ∧ s = s' ∧ natDist m m' < 1000) ∧
        (∀ k, ¬k ∈ items.map Prod.fst → lookupName k cur' = lookupName k cur) ∧
        (∀ k, (lookupName k cur').isSome = true →
            (lookupName k cur).isSome = true ∨ k ∈ items.map Prod.fst) := by
  intro items
  induction items with
  | nil =>
    intro cur st _ _ _
    exact ⟨cur, st, rfl, by simp, fun k _ => rfl, fun k hk => Or.inl hk⟩
  | cons hd rest ih =>
    intro cur st hflat hnodup hcoh
    obtain ⟨n, sc⟩ := hd
    obtain ⟨s, m, rfl⟩ : ∃ s m, sc = .file s m := by
      have := hflat (n, sc) (by simp)
      cases sc with
      | file s m => exact ⟨s, m, rfl⟩
      | dir _ => simp [isFileT] at this
    have hnotin : ¬n ∈ rest.map Prod.fst := by
      simpa using (List.nodup_cons.mp hnodup).1
    have hnodup' : (rest.map Prod.fst).Nodup := (List.nodup_cons.mp hnodup).2
    have hflat' : ∀ p ∈ rest, isFileT p.2 = true := fun p hp => hflat p (by simp [hp])
    -- a copied/kept entry at n does not disturb the coherence of the rest
    have hcoh_of : ∀ cur₁ : Listing,
        (∀ k, ¬k = n → lookupName k cur₁ = lookupName k cur) →
        ∀ p ∈ rest, lookupName p.1 cur₁ = lookupName p.1 dcs := by
      intro cur₁ hpres p hp
      have hpn : ¬p.1 = n := by
        intro hpn
        exact hnotin (hpn ▸ List.mem_map_of_mem Prod.fst hp)
      rw [hpres p.1 hpn]
      exact hcoh p (by simp [hp])
    cases hsnap : (dcs.map Prod.fst).contains n with
    | false =>
      -- absent at destination: fresh copy
      have hnone : lookupName n cur = none := by
        have h1 := hcoh (n, .file s m) (by simp)
        have h2 := lookupName_isSome_eq_contains n dcs
        rw [hsnap] at h2
        rw [h1]
        exact Option.not_isSome_iff_eq_none.mp (by simp [h2])
      have hcopy := safe_copy_file_ok n s m (lookupName n cur)
        (by rw [hnone]; intro dc h; exact Option.noConfusion h) st
      obtain ⟨cur', st', hrun, hsync, hpres, hsome⟩ :=
        ih (setEntry n (some (.file s m)) cur) _ hflat' hnodup'
          (hcoh_of _ (fun k hk => lookupName_setEntry_ne n k _ cur hk))
      refine ⟨cur', st', ?_, ?_, ?_, ?_⟩
      · rw [loopItems_cons_absent recurse envOk srcTop _ n _ rest cur st hsnap, hcopy]
        exact hrun
      · intro p hp
        rcases List.mem_cons.mp hp with hp | hp
        · subst hp
          refine ⟨s, m, s, m, rfl, ?_, rfl, by simp [natDist]⟩
          rw [hpres n hnotin, lookupName_setEntry_self]
        · exact hsync p hp
      · intro k hk
        have hkn : ¬k = n := fun h => hk (by simp [h])
        have hkr : ¬k ∈ rest.map Prod.fst := fun h => hk (by simp [h])
        rw [hpres k hkr, lookupName_setEntry_ne n k _ cur hkn]
      · intro k hk
        rcases hsome k hk with hk2 | hk2
        · by_cases hkn : k = n
          · exact Or.inr (by simp [hkn])
          · rw [lookupName_setEntry_ne n k _ cur hkn] at hk2
            exact Or.inl hk2
        · exact Or.inr (by simp [hk2])
    | true =>
      -- present at destination
      have hlkc : lookupName n cur = lookupName n dcs := hcoh (n, .file s m) (by simp)
      have hsome0 : (lookupName n cur).isSome = true := by
        rw [hlkc, lookupName_isSome_eq_contains]; exact hsnap
      obtain ⟨t', hlk⟩ := Option.isSome_iff_exists.mp hsome0
      cases t' with
      | file s2 m2 =>
        cases hb : (s == s2 && decide (natDist m m2 < 1000)) with
        | true =>
          -- equal: skipped, nothing changes
          obtain ⟨cur', st', hrun, hsync, hpres, hsome⟩ :=
            ih cur st hflat' hnodup' (fun p hp => hcoh p (by simp [hp]))
          refine ⟨cur', st', ?_, ?_, ?_, ?_⟩
          · rw [loopItems_cons_files_eq recurse envOk srcTop _ n s m rest cur st s2 m2
                hsnap hlk rfl hb]
            exact hrun
          · intro p hp
            rcases List.mem_cons.mp hp with hp | hp
            · subst hp
              have hb' := hb
              simp only [Bool.and_eq_true, beq_iff_eq, decide_eq_true_eq] at hb'
              exact ⟨s, m, s2, m2, rfl, by rw [hpres n hnotin]; exact hlk, hb'.1, hb'.2⟩
            · exact hsync p hp
          · exact fun k hk => hpres k (fun h => hk (by simp [h]))
          · intro k hk
            rcases hsome k hk with hk2 | hk2
            · exact Or.inl hk2
            · exact Or.inr (by simp [hk2])
        | false =>
          -- differing: re-copied
          have hcopy := safe_copy_file_ok n s m (some (.file s2 m2))
            (fun dc h => FSTree.noConfusion (Option.some.inj h)) st
          obtain ⟨cur', st', hrun, hsync, hpres, hsome⟩ :=
            ih (setEntry n (some (.file s m)) cur) _ hflat' hnodup'
              (hcoh_of _ (fun k hk => lookupName_setEntry_ne n k _ cur hk))
          refine ⟨cur', st', ?_, ?_, ?_, ?_⟩
          · rw [loopItems_cons_files_ne recurse envOk srcTop _ n s m rest cur st s2 m2
                hsnap hlk rfl hb, hcopy]
            exact hrun
          · intro p hp
            rcases List.mem_cons.mp hp with hp | hp
            · subst hp
              refine ⟨s, m, s, m, rfl, ?_, rfl, by simp [natDist]⟩
              rw [hpres n hnotin, lookupName_setEntry_self]
            · exact hsync p hp
          · intro k hk
            have hkn : ¬k = n := fun h => hk (by simp [h])
            have hkr : ¬k ∈ rest.map Prod.fst := fun h => hk (by simp [h])
            rw [hpres k hkr, lookupName_setEntry_ne n k _ cur hkn]
          · intro k hk
            rcases hsome k hk with hk2 | hk2
            · by_cases hkn : k = n
              · exact Or.inr (by simp [hkn])
              · rw [lookupName_setEntry_ne n k _ cur hkn] at hk2
                exact Or.inl hk2
            · exact Or.inr (by simp [hk2])
      | dir dc =>
        -- kind mismatch: removed, then copied fresh
        have hrem := safe_remove_some_ok n (.dir dc) st
        obtain ⟨cur', st', hrun, hsync, hpres, hsome⟩ :=
          ih (setEntry n (some (.file s m)) cur) _ hflat' hnodup'
            (hcoh_of _ (fun k hk => lookupName_setEntry_ne n k _ cur hk))
        refine ⟨cur', st', ?_, ?_, ?_, ?_⟩
        · rw [loopItems_cons_file_dir recurse envOk srcTop _ n s m rest cur st dc hsnap hlk,
              hlk, hrem]
          exact hrun
        · intro p hp
          rcases List.mem_cons.mp hp with hp | hp
          · subst hp
            refine ⟨s, m, s, m, rfl, ?_, rfl, by simp [natDist]⟩
            rw [hpres n hnotin, lookupName_setEntry_self]
          · exact hsync p hp
        · intro k hk
          have hkn : ¬k = n := fun h => hk (by simp [h])
          have hkr : ¬k ∈ rest.map Prod.fst := fun h => hk (by simp [h])
          rw [hpres k hkr, lookupName_setEntry_ne n k _ cur hkn]
        · intro k hk
          rcases hsome k hk with hk2 | hk2
          · by_cases hkn : k = n
            · exact Or.inr (by simp [hkn])
            · rw [lookupName_setEntry_ne n k _ cur hkn] at hk2
              exact Or.inl hk2
          · exact Or.inr (by simp [hk2])

lemma syncCore_succ_dir_ok_del (env : Env) (base patterns : List String)
    (fuel : Nat) (scs dcs : Listing) (st : St) (cur' : Listing) (st' : St)
    (hmk : env.mkdirFail = false) (hlist : env.listFail = false)
    (hloop : loopItems (syncCore env base patterns true fuel) env (.dir scs)
        (dcs.map Prod.fst)
        (scs.filter (fun p => !(is_excluded (base ++ [p.1]) patterns base))) dcs st
      = .ok (cur', st')) :
    syncCore env base patterns true (fuel + 1) (some (.dir scs)) (some (.dir dcs)) st
      = .ok (some (.dir (deletePass env
              ((scs.filter (fun p => !(is_excluded (base ++ [p.1]) patterns base))).map Prod.fst)
              (dcs.map Prod.fst) cur' st').1),
             (deletePass env
              ((scs.filter (fun p => !(is_excluded (base ++ [p.1]) patterns base))).map Prod.fst)
              (dcs.map Prod.fst) cur' st').2) := by
  rw [syncCore_succ_dir env base patterns true fuel scs dcs st hmk hlist, hloop]
  rfl

lemma syncCore_succ_dir_ok_nodel (env : Env) (base patterns : List String)
    (fuel : Nat) (scs dcs : Listing) (st : St) (cur' : Listing) (st' : St)
    (hmk : env.mkdirFail = false) (hlist : env.listFail = false)
    (hloop : loopItems (syncCore env base patterns false fuel) env (.dir scs)
        (dcs.map Prod.fst)
        (scs.filter (fun p => !(is_excluded (base ++ [p.1]) patterns base))) dcs st
      = .ok (cur', st')) :
    syncCore env base patterns false (fuel + 1) (some (.dir scs)) (some (.dir dcs)) st
      = .ok (some (.dir cur'), st') := by
  rw [syncCore_succ_dir env base patterns false fuel scs dcs st hmk hlist, hloop]
  rfl

/-- Second-run loop: when every item already has an equal (same size,
same-second) destination file, the loop is the identity on both the
listing and the run state. -/
lemma loop_flat_synced (recurse : SyncK) (srcTop : FSTree) (cur : Listing) :
    ∀ (items : Listing) (st : St),
      (∀ p ∈ items, ∃ s m s' m', p.2 = .file s m ∧
          lookupName p.1 cur = some (.file s' m') ∧ s = s' ∧ natDist m m' < 1000) →
      loopItems recurse envOk srcTop (cur.map Prod.fst) items cur st = .ok (cur, st) := by
  intro items
  induction items with
  | nil => intro st _; rfl
  | cons hd rest ih =>
    intro st hsync
    obtain ⟨n, sc⟩ := hd
    obtain ⟨s, m, s', m', hsc, hlk, hss, hmm⟩ := hsync (n, sc) (by simp)
    simp only at hsc
    subst hsc
    have hsnap : ((cur.map Prod.fst).contains n) = true := by
      rw [← lookupName_isSome_eq_contains, hlk]; rfl
    have hb : (s == s' && decide (natDist m m' < 1000)) = true := by
      simp [hss, hmm]
    rw [loopItems_cons_files_eq recurse envOk srcTop _ n s m rest cur st s' m' hsnap hlk rfl hb]
    exact ih st (fun p hp => hsync p (by simp [hp]))

/-- The deletion pass in the no-failure environment, lookup-wise: exactly
the snapshot names outside the filtered source names end up absent; all
other entries are untouched. -/
lemma deletePass_lookup (srcNames : List String) :
    ∀ (snap : List String) (cur : Listing) (st : St) (k : String),
      lookupName k (deletePass envOk srcNames snap cur st).1
        = if (snap.contains k && !(srcNames.contains k)) = true then none
          else lookupName k cur := by
  intro snap
  induction snap with
  | nil =>
    intro cur st k
    simp [deletePass, List.contains]
  | cons n rest ih =>
    intro cur st k
    simp only [deletePass]
    by_cases hn : srcNames.contains n = true
    · rw [if_pos hn, ih]
      by_cases hk : k = n
      · subst hk
        simp [List.contains_cons, List.elem_iff.mp hn]
      · simp [List.contains_cons, hk]
    · rw [if_neg hn]
      have hnm : ¬n ∈ srcNames := fun hm => hn (List.elem_iff.mpr hm)
      cases hl : lookupName n cur with
      | none =>
        rw [ih, show (safe_remove envOk n none st).1 = false from rfl]
        by_cases hk : k = n
        · subst hk
          simp [List.contains_cons, hnm, hl]
        · simp [List.contains_cons, hk]
      | some t =>
        rw [ih, show (safe_remove envOk n (some t) st).1 = true from rfl]
        by_cases hk : k = n
        · subst hk
          simp [List.contains_cons, hnm, lookupName_removeName_self]
        · simp [List.contains_cons, hk, lookupName_removeName_ne n k cur hk]

/-- The deletion pass does nothing when every snapshot name is still a
(filtered) source name. -/
lemma deletePass_skip (srcNames : List String) :
    ∀ (snap : List String) (cur : Listing) (st : St),
      (∀ k ∈ snap, srcNames.contains k = true) →
      deletePass envOk srcNames snap cur st = (cur, st) := by
  intro snap
  induction snap with
  | nil => intro cur st _; rfl
  | cons n rest ih =>
    intro cur st h
    simp only [deletePass]
    rw [if_pos (h n (by simp))]
    exact ih cur st (fun k hk => h k (by simp [hk]))

/-! Step equations of `syncCore` for the remaining entry branches. -/

lemma syncCore_zero (env : Env) (base patterns : List String) (del : Bool)
    (src dst : Option FSTree) (st : St) :
    syncCore env base patterns del 0 src dst st = .error .recursionDepth := rfl

lemma syncCore_succ_srcMissing (env : Env) (base patterns : List String) (del : Bool)
    (fuel : Nat) (dst : Option FSTree) (st : St) :
    syncCore env base patterns del (fuel + 1) none dst st
      = .ok (dst, { st with events := .srcMissing :: st.events }) := rfl

lemma syncCore_succ_mkdirFail (env : Env) (base patterns : List String) (del : Bool)
    (fuel : Nat) (srcT : FSTree) (dst : Option FSTree) (st : St)
    (h : env.mkdirFail = true) :
    syncCore env base patterns del (fuel + 1) (some srcT) dst st = .error .mkdirFailed := by
  simp [syncCore, h]

lemma syncCore_succ_dstFile (env : Env) (base patterns : List String) (del : Bool)
    (fuel : Nat) (srcT : FSTree) (s m : Nat) (st : St) :
    syncCore env base patterns del (fuel + 1) (some srcT) (some (.file s m)) st
      = .error .mkdirFailed := by
  simp [syncCore]

lemma syncCore_succ_listFail (env : Env) (base patterns : List String) (del : Bool)
    (fuel : Nat) (srcT : FSTree) (dst : Option FSTree) (st : St)
    (hmk : env.mkdirFail = false)
    (hdst : ∀ s m, ¬dst = some (.file s m))
    (hl : env.listFail = true) :
    syncCore env base patterns del (fuel + 1) (some srcT) dst st
      = .ok (some (.dir (childrenOrD dst [])),
             { st with events := .listFailed :: st.events }) := by
  cases dst with
  | none => simp [syncCore, hmk, hl]
  | some t =>
    cases t with
    | file s m => exact absurd rfl (hdst s m)
    | dir dc => simp [syncCore, hmk, hl, childrenOrD]

lemma syncCore_succ_srcFile (env : Env) (base patterns : List String) (del : Bool)
    (fuel : Nat) (s m : Nat) (dst : Option FSTree) (st : St)
    (hmk : env.mkdirFail = false)
    (hdst : ∀ s2 m2, ¬dst = some (.file s2 m2))
    (hl : env.listFail = false) :
    syncCore env base patterns del (fuel + 1) (some (.file s m)) dst st
      = .ok (some (.dir (childrenOrD dst [])),
             { st with events := .listFailed :: st.events }) := by
  cases dst with
  | none => simp [syncCore, hmk, hl]
  | some t =>
    cases t with
    | file s2 m2 => exact absurd rfl (hdst s2 m2)
    | dir dc => simp [syncCore, hmk, hl, childrenOrD]

/-- A per-level loop (any environment) never touches a destination entry
whose name is not among the items it iterates, provided the recursive call
it may make preserves that entry too. -/
lemma loop_preserves (env : Env) (srcTop : FSTree) (snap : List String) (n : String)
    (recurse : SyncK)
    (hrec : ∀ (dst0 : Option FSTree) (st0 : St) (d1 : Option FSTree) (st1 : St),
        recurse (some srcTop) dst0 st0 = .ok (d1, st1) →
        ∀ cur0 : Listing, dst0 = some (.dir cur0) →
        ∃ cur1, d1 = some (.dir cur1) ∧ lookupName n cur1 = lookupName n cur0) :
    ∀ (items cur : Listing) (st : St) (cur' : Listing) (st' : St),
      ¬n ∈ items.map Prod.fst →
      loopItems recurse env srcTop snap items cur st = .ok (cur', st') →
      lookupName n cur' = lookupName n cur := by
  intro items
  induction items with
  | nil =>
    intro cur st cur' st' _ hrun
    cases hrun
    rfl
  | cons hd rest ih =>
    intro cur st cur' st' hnotin hrun
    obtain ⟨n0, sc⟩ := hd
    have hne : ¬n = n0 := by
      intro h
      exact hnotin (by simp [h])
    have hnotin' : ¬n ∈ rest.map Prod.fst := fun h => hnotin (by simp [h])
    have hpres : ∀ e, lookupName n (setEntry n0 e cur) = lookupName n cur :=
      fun e => lookupName_setEntry_ne n0 n e cur hne
    cases hsnap : snap.contains n0 with
    | false =>
      rw [loopItems_cons_absent recurse env srcTop snap n0 sc rest cur st hsnap] at hrun
      rw [ih _ _ _ _ hnotin' hrun, hpres]
    | true =>
      cases hlk : lookupName n0 cur with
      | none =>
        rw [loopItems_cons_live_missing recurse env srcTop snap n0 sc rest cur st hsnap hlk]
          at hrun
        rw [ih _ _ _ _ hnotin' hrun, hpres]
      | some t =>
        cases sc with
        | file s m =>
          cases t with
          | file s2 m2 =>
            cases hstat : env.statFail n0 with
            | true =>
              rw [loopItems_cons_files_statfail recurse env srcTop snap n0 s m rest cur st
                s2 m2 hsnap hlk hstat] at hrun
              exact Except.noConfusion hrun
            | false =>
              cases hb : (s == s2 && decide (natDist m m2 < 1000)) with
              | true =>
                rw [loopItems_cons_files_eq recurse env srcTop snap n0 s m rest cur st
                  s2 m2 hsnap hlk hstat hb] at hrun
                exact ih _ _ _ _ hnotin' hrun
              | false =>
                rw [loopItems_cons_files_ne recurse env srcTop snap n0 s m rest cur st
                  s2 m2 hsnap hlk hstat hb] at hrun
                rw [ih _ _ _ _ hnotin' hrun, hpres]
          | dir dc =>
            rw [loopItems_cons_file_dir recurse env srcTop snap n0 s m rest cur st dc
              hsnap hlk] at hrun
            rw [ih _ _ _ _ hnotin' hrun, hpres]
        | dir sa =>
          cases t with
          | file s2 m2 =>
            rw [loopItems_cons_dir_file recurse env srcTop snap n0 sa rest cur st s2 m2
              hsnap hlk] at hrun
            rw [ih _ _ _ _ hnotin' hrun, hpres]
          | dir dc =>
            rw [loopItems_cons_dirs recurse env srcTop snap n0 sa rest cur st dc
              hsnap hlk] at hrun
            cases hc : recurse (some srcTop) (some (.dir cur)) st with
            | error e =>
              rw [hc] at hrun
              exact Except.noConfusion hrun
            | ok r =>
              obtain ⟨d1, st1⟩ := r
              rw [hc] at hrun
              obtain ⟨cur1, hd1, hl1⟩ := hrec (some (.dir cur)) st d1 st1 hc cur rfl
              rw [hd1] at hrun
              simp only [childrenOrD] at hrun
              rw [ih _ _ _ _ hnotin' hrun, hl1]

/-- Whole-run frame property of `sync_recursive` with `should_delete`
false: a name absent from the raw source listing keeps its destination
entry (subtree and all) through the run, whatever the environment does. -/
lemma syncCore_preserves (env : Env) (base patterns : List String) (n : String) :
    ∀ (fuel : Nat) (scs dcs : Listing) (st : St) (d' : Option FSTree) (st' : St),
      ((scs.map Prod.fst).contains n) = false →
      syncCore env base patterns false fuel (some (.dir scs)) (some (.dir dcs)) st
        = .ok (d', st') →
      ∃ cur', d' = some (.dir cur') ∧ lookupName n cur' = lookupName n dcs := by
  intro fuel
  induction fuel with
  | zero =>
    intro scs dcs st d' st' _ hrun
    rw [syncCore_zero] at hrun
    exact Except.noConfusion hrun
  | succ fuel ih =>
    intro scs dcs st d' st' hn hrun
    cases hmk : env.mkdirFail with
    | true =>
      rw [syncCore_succ_mkdirFail env base patterns false fuel (.dir scs)
        (some (.dir dcs)) st hmk] at hrun
      exact Except.noConfusion hrun
    | false =>
      cases hl : env.listFail with
      | true =>
        rw [syncCore_succ_listFail env base patterns false fuel (.dir scs)
          (some (.dir dcs)) st hmk (fun s m h => by cases h) hl] at hrun
        cases hrun
        exact ⟨dcs, rfl, rfl⟩
      | false =>
        rw [syncCore_succ_dir env base patterns false fuel scs dcs st hmk hl] at hrun
        cases hloop : loopItems (syncCore env base patterns false fuel) env (.dir scs)
            (dcs.map Prod.fst)
            (scs.filter (fun p => !(is_excluded (base ++ [p.1]) patterns base))) dcs st with
        | error e =>
          rw [hloop] at hrun
          exact Except.noConfusion hrun
        | ok r =>
          obtain ⟨cur, st2⟩ := r
          rw [hloop] at hrun
          simp only [Bool.false_eq_true, if_false] at hrun
          cases hrun
          have hnotin : ¬n ∈ ((scs.filter
              (fun p => !(is_excluded (base ++ [p.1]) patterns base))).map Prod.fst) := by
            intro hmem
            have hmem2 : n ∈ scs.map Prod.fst :=
              List.Sublist.mem hmem (List.Sublist.map Prod.fst (List.filter_sublist scs))
            have hc : ((scs.map Prod.fst).contains n) = true := List.elem_iff.mpr hmem2
            rw [hc] at hn
            exact Bool.noConfusion hn
          refine ⟨cur, rfl, ?_⟩
          exact loop_preserves env (.dir scs) (dcs.map Prod.fst) n
            (syncCore env base patterns false fuel)
            (fun dst0 st0 d1 st1 hc cur0 hdst0 => by
              subst hdst0
              exact ih scs cur0 st0 d1 st1 hn hc)
            _ dcs st cur st' hnotin hloop

/-- A missing destination directory behaves exactly like an empty one
(`mkdir(parents=True, exist_ok=True)` creates it before listing). -/
lemma syncCore_none_dst (env : Env) (base patterns : List String) (del : Bool)
    (fuel : Nat) (srcT : FSTree) (st : St) :
    syncCore env base patterns del fuel (some srcT) none st
      = syncCore env base patterns del fuel (some srcT) (some (.dir [])) st := by
  cases fuel with
  | zero => rfl
  | succ fuel => rfl

/-- The loop can only raise what `files_are_equal` or the recursive call
raises: with stat failures off, every loop error comes from the recursive
call. -/
lemma loop_errors (env : Env) (srcTop : FSTree) (snap : List String)
    (hstat : ∀ k, env.statFail k = false)
    (recurse : SyncK)
    (hrec : ∀ (cur0 : Listing) (st0 : St) (e : PyErr),
        recurse (some srcTop) (some (.dir cur0)) st0 = .error e → e = .recursionDepth) :
    ∀ (items cur : Listing) (st : St) (e : PyErr),
      loopItems recurse env srcTop snap items cur st = .error e → e = .recursionDepth := by
  intro items
  induction items with
  | nil =>
    intro cur st e hrun
    exact Except.noConfusion hrun
  | cons hd rest ih =>
    intro cur st e hrun
    obtain ⟨n0, sc⟩ := hd
    cases hsnap : snap.contains n0 with
    | false =>
      rw [loopItems_cons_absent recurse env srcTop snap n0 sc rest cur st hsnap] at hrun
      exact ih _ _ _ hrun
    | true =>
      cases hlk : lookupName n0 cur with
      | none =>
        rw [loopItems_cons_live_missing recurse env srcTop snap n0 sc rest cur st hsnap hlk]
          at hrun
        exact ih _ _ _ hrun
      | some t =>
        cases sc with
        | file s m =>
          cases t with
          | file s2 m2 =>
            cases hb : (s == s2 && decide (natDist m m2 < 1000)) with
            | true =>
              rw [loopItems_cons_files_eq recurse env srcTop snap n0 s m rest cur st
                s2 m2 hsnap hlk (hstat n0) hb] at hrun
              exact ih _ _ _ hrun
            | false =>
              rw [loopItems_cons_files_ne recurse env srcTop snap n0 s m rest cur st
                s2 m2 hsnap hlk (hstat n0) hb] at hrun
              exact ih _ _ _ hrun
          | dir dc =>
            rw [loopItems_cons_file_dir recurse env srcTop snap n0 s m rest cur st dc
              hsnap hlk] at hrun
            exact ih _ _ _ hrun
        | dir sa =>
          cases t with
          | file s2 m2 =>
            rw [loopItems_cons_dir_file recurse env srcTop snap n0 sa rest cur st s2 m2
              hsnap hlk] at hrun
            exact ih _ _ _ hrun
          | dir dc =>
            rw [loopItems_cons_dirs recurse env srcTop snap n0 sa rest cur st dc
              hsnap hlk] at hrun
            cases hc : recurse (some srcTop) (some (.dir cur)) st with
            | error e2 =>
              rw [hc] at hrun
              cases hrun
              exact hrec cur st e hc
            | ok r =>
              obtain ⟨d1, st1⟩ := r
              rw [hc] at hrun
              exact ih _ _ _ hrun

/-- Error classification for `sync_recursive`: once destination-mkdir and
comparison-stat failures are ruled out (and the top-level destination is
not a file), the only exception that can cross the caller boundary is
`RecursionError` — per-entry copy/delete failures and listing failures are
always contained. -/
lemma syncCore_errors (env : Env) (base patterns : List String) (del : Bool)
    (hmk : env.mkdirFail = false) (hstat : ∀ k, env.statFail k = false) :
    ∀ (fuel : Nat) (src dst : Option FSTree) (st : St) (e : PyErr),
      (∀ s m, ¬dst = some (.file s m)) →
      syncCore env base patterns del fuel src dst st = .error e → e = .recursionDepth := by
  intro fuel
  induction fuel with
  | zero =>
    intro src dst st e _ hrun
    rw [syncCore_zero] at hrun
    cases hrun
    rfl
  | succ fuel ih =>
    intro src dst st e hdst hrun
    cases src with
    | none =>
      rw [syncCore_succ_srcMissing] at hrun
      exact Except.noConfusion hrun
    | some srcT =>
      have hdir : ∃ dcs : Listing, syncCore env base patterns del (fuel + 1)
          (some srcT) dst st
            = syncCore env base patterns del (fuel + 1) (some srcT) (some (.dir dcs)) st := by
        cases dst with
        | none => exact ⟨[], syncCore_none_dst env base patterns del (fuel + 1) srcT st⟩
        | some t =>
          cases t with
          | file s m => exact absurd rfl (hdst s m)
          | dir dcs => exact ⟨dcs, rfl⟩
      obtain ⟨dcs, heq⟩ := hdir
      rw [heq] at hrun
      cases hl : env.listFail with
      | true =>
        rw [syncCore_succ_listFail env base patterns del fuel srcT (some (.dir dcs)) st hmk
          (fun s m h => by cases h) hl] at hrun
        exact Except.noConfusion hrun
      | false =>
        cases srcT with
        | file s m =>
          rw [syncCore_succ_srcFile env base patterns del fuel s m (some (.dir dcs)) st hmk
            (fun s2 m2 h => by cases h) hl] at hrun
          exact Except.noConfusion hrun
        | dir scs =>
          rw [syncCore_succ_dir env base patterns del fuel scs dcs st hmk hl] at hrun
          cases hloop : loopItems (syncCore env base patterns del fuel) env (.dir scs)
              (dcs.map Prod.fst)
              (scs.filter (fun p => !(is_excluded (base ++ [p.1]) patterns base))) dcs st with
          | error e2 =>
            rw [hloop] at hrun
            cases hrun
            exact loop_errors env (.dir scs) (dcs.map Prod.fst) hstat
              (syncCore env base patterns del fuel)
              (fun cur0 st0 e3 hc =>
                ih (some (.dir scs)) (some (.dir cur0)) st0 e3 (fun s m h => by cases h) hc)
              _ _ _ _ hloop
          | ok r =>
            obtain ⟨cur, st2⟩ := r
            rw [hloop] at hrun
            cases del with
            | true => exact Except.noConfusion hrun
            | false => exact Except.noConfusion hrun

/-- `safe_copy` pushes exactly one event, and that event names the copied
entry. -/
lemma safe_copy_events (env : Env) (n : String) (sc : FSTree) (dstE : Option FSTree) (st : St) :
    ∃ ev, (safe_copy env n sc dstE st).2.events = ev :: st.events ∧
      ∀ k, copyCallAt k ev = true → k = n := by
  cases hc : env.copyFail n with
  | true =>
    refine ⟨.copyFailed n, by simp [safe_copy, hc], ?_⟩
    intro k hk
    simp [copyCallAt] at hk
    exact hk.symm
  | false =>
    cases sc with
    | file s m =>
      rcases dstE with _ | t
      · refine ⟨.copiedFile n, by simp [safe_copy, hc], ?_⟩
        intro k hk
        simp [copyCallAt] at hk
        exact hk.symm
      · cases t with
        | file s2 m2 =>
          refine ⟨.copiedFile n, by simp [safe_copy, hc], ?_⟩
          intro k hk
          simp [copyCallAt] at hk
          exact hk.symm
        | dir dc =>
          refine ⟨.copyFailed n, by simp [safe_copy, hc], ?_⟩
          intro k hk
          simp [copyCallAt] at hk
          exact hk.symm
    | dir cs =>
      rcases dstE with _ | t
      · refine ⟨.copiedTree n, by simp [safe_copy, hc], ?_⟩
        intro k hk
        simp [copyCallAt] at hk
        exact hk.symm
      · cases t with
        | file s2 m2 =>
          refine ⟨.copyFailed n, by simp [safe_copy, hc], ?_⟩
          intro k hk
          simp [copyCallAt] at hk
          exact hk.symm
        | dir dc =>
          refine ⟨.copiedTree n, by simp [safe_copy, hc], ?_⟩
          intro k hk
          simp [copyCallAt] at hk
          exact hk.symm

/-- `safe_remove` pushes exactly one event, and it is never a copy
event. -/
lemma safe_remove_events (env : Env) (n : String) (entry : Option FSTree) (st : St) :
    ∃ ev, (safe_remove env n entry st).2.events = ev :: st.events ∧
      ∀ k, copyCallAt k ev = false := by
  by_cases h : (env.removeFail n || entry.isNone) = true
  · exact ⟨.removeFailed n, by simp [safe_remove, h], fun k => rfl⟩
  · exact ⟨.removedEntry n, by simp [safe_remove, h], fun k => rfl⟩

lemma safe_copy_copyCount (env : Env) (n n0 : String) (sc : FSTree) (dstE : Option FSTree)
    (st : St) (hne : ¬n0 = n) :
    copyCount n (safe_copy env n0 sc dstE st).2 = copyCount n st := by
  obtain ⟨ev, hev, hf⟩ := safe_copy_events env n0 sc dstE st
  have hfalse : copyCallAt n ev = false := by
    cases hcc : copyCallAt n ev with
    | false => rfl
    | true => exact absurd (hf n hcc).symm hne
  simp [copyCount, hev, List.countP_cons, hfalse]

lemma safe_remove_copyCount (env : Env) (n n0 : String) (entry : Option FSTree) (st : St) :
    copyCount n (safe_remove env n0 entry st).2 = copyCount n st := by
  obtain ⟨ev, hev, hf⟩ := safe_remove_events env n0 entry st
  simp [copyCount, hev, List.countP_cons, hf n]

/-- The deletion pass writes no copy events. -/
lemma deletePass_copyCount (env : Env) (srcNames : List String) (n : String) :
    ∀ (snap : List String) (cur : Listing) (st : St),
      copyCount n (deletePass env srcNames snap cur st).2 = copyCount n st := by
  intro snap
  induction snap with
  | nil => intro cur st; rfl
  | cons n0 rest ih =>
    intro cur st
    simp only [deletePass]
    by_cases h : srcNames.contains n0 = true
    · rw [if_pos h]
      exact ih cur st
    · rw [if_neg h, ih, safe_remove_copyCount]

/-- The per-entry loop never records a copy event for a name outside its
item list, provided the recursive call does not either. -/
lemma loop_copyCount (env : Env) (srcTop : FSTree) (snap : List String) (n : String)
    (recurse : SyncK)
    (hrec : ∀ (dst0 : Option FSTree) (st0 : St) (d1 : Option FSTree) (st1 : St),
        recurse (some srcTop) dst0 st0 = .ok (d1, st1) → copyCount n st1 = copyCount n st0) :
    ∀ (items cur : Listing) (st : St) (cur' : Listing) (st' : St),
      ¬n ∈ items.map Prod.fst →
      loopItems recurse env srcTop snap items cur st = .ok (cur', st') →
      copyCount n st' = copyCount n st := by
  intro items
  induction items with
  | nil =>
    intro cur st cur' st' _ hrun
    cases hrun
    rfl
  | cons hd rest ih =>
    intro cur st cur' st' hnotin hrun
    obtain ⟨n0, sc⟩ := hd
    have hne : ¬n0 = n := by
      intro h
      exact hnotin (by simp [h])
    have hnotin' : ¬n ∈ rest.map Prod.fst := fun h => hnotin (by simp [h])
    cases hsnap : snap.contains n0 with
    | false =>
      rw [loopItems_cons_absent recurse env srcTop snap n0 sc rest cur st hsnap] at hrun
      rw [ih _ _ _ _ hnotin' hrun, safe_copy_copyCount env n n0 sc _ st hne]
    | true =>
      cases hlk : lookupName n0 cur with
      | none =>
        rw [loopItems_cons_live_missing recurse env srcTop snap n0 sc rest cur st hsnap hlk]
          at hrun
        rw [ih _ _ _ _ hnotin' hrun, safe_copy_copyCount env n n0 sc _ _ hne,
          safe_remove_copyCount]
      | some t =>
        cases sc with
        | file s m =>
          cases t with
          | file s2 m2 =>
            cases hstat : env.statFail n0 with
            | true =>
              rw [loopItems_cons_files_statfail recurse env srcTop snap n0 s m rest cur st
                s2 m2 hsnap hlk hstat] at hrun
              exact Except.noConfusion hrun
            | false =>
              cases hb : (s == s2 && decide (natDist m m2 < 1000)) with
              | true =>
                rw [loopItems_cons_files_eq recurse env srcTop snap n0 s m rest cur st
                  s2 m2 hsnap hlk hstat hb] at hrun
                exact ih _ _ _ _ hnotin' hrun
              | false =>
                rw [loopItems_cons_files_ne recurse env srcTop snap n0 s m rest cur st
                  s2 m2 hsnap hlk hstat hb] at hrun
                rw [ih _ _ _ _ hnotin' hrun, safe_copy_copyCount env n n0 _ _ st hne]
          | dir dc =>
            rw [loopItems_cons_file_dir recurse env srcTop snap n0 s m rest cur st dc
              hsnap hlk] at hrun
            rw [ih _ _ _ _ hnotin' hrun, safe_copy_copyCount env n n0 _ _ _ hne,
              safe_remove_copyCount]
        | dir sa =>
          cases t with
          | file s2 m2 =>
            rw [loopItems_cons_dir_file recurse env srcTop snap n0 sa rest cur st s2 m2
              hsnap hlk] at hrun
            rw [ih _ _ _ _ hnotin' hrun, safe_copy_copyCount env n n0 _ _ _ hne,
              safe_remove_copyCount]
          | dir dc =>
            rw [loopItems_cons_dirs recurse env srcTop snap n0 sa rest cur st dc
              hsnap hlk] at hrun
            cases hc : recurse (some srcTop) (some (.dir cur)) st with
            | error e2 =>
              rw [hc] at hrun
              exact Except.noConfusion hrun
            | ok r =>
              obtain ⟨d1, st1⟩ := r
              rw [hc] at hrun
              rw [ih _ _ _ _ hnotin' hrun]
              exact hrec (some (.dir cur)) st d1 st1 hc

/-- Whole-run exclusion: a name whose relative path is excluded never
receives a copy attempt in any completed run (its copy-event count is
unchanged), whatever the environment. -/
lemma syncCore_no_copy_excluded (env : Env) (base patterns : List String) (del : Bool)
    (n : String) (hex : is_excluded (base ++ [n]) patterns base = true) :
    ∀ (fuel : Nat) (src dst : Option FSTree) (st : St) (d' : Option FSTree) (st' : St),
      syncCore env base patterns del fuel src dst st = .ok (d', st') →
      copyCount n st' = copyCount n st := by
  intro fuel
  induction fuel with
  | zero =>
    intro src dst st d' st' hrun
    rw [syncCore_zero] at hrun
    exact Except.noConfusion hrun
  | succ fuel ih =>
    intro src dst st d' st' hrun
    cases src with
    | none =>
      rw [syncCore_succ_srcMissing] at hrun
      cases hrun
      simp [copyCount, List.countP_cons, copyCallAt]
    | some srcT =>
      cases hmk : env.mkdirFail with
      | true =>
        rw [syncCore_succ_mkdirFail env base patterns del fuel srcT dst st hmk] at hrun
        exact Except.noConfusion hrun
      | false =>
        have hdircase : (∃ s m, dst = some (.file s m)) ∨
            ∃ dcs : Listing, syncCore env base patterns del (fuel + 1) (some srcT) dst st
              = syncCore env base patterns del (fuel + 1) (some srcT) (some (.dir dcs)) st := by
          cases dst with
          | none => exact Or.inr ⟨[], syncCore_none_dst env base patterns del (fuel + 1) srcT st⟩
          | some t =>
            cases t with
            | file s m => exact Or.inl ⟨s, m, rfl⟩
            | dir dcs => exact Or.inr ⟨dcs, rfl⟩
        rcases hdircase with ⟨s, m, hfile⟩ | ⟨dcs, heq⟩
        · rw [hfile, syncCore_succ_dstFile] at hrun
          exact Except.noConfusion hrun
        · rw [heq] at hrun
          cases hl : env.listFail with
          | true =>
            rw [syncCore_succ_listFail env base patterns del fuel srcT (some (.dir dcs)) st hmk
              (fun s m h => by cases h) hl] at hrun
            cases hrun
            simp [copyCount, List.countP_cons, copyCallAt]
          | false =>
            cases srcT with
            | file s m =>
              rw [syncCore_succ_srcFile env base patterns del fuel s m (some (.dir dcs)) st hmk
                (fun s2 m2 h => by cases h) hl] at hrun
              cases hrun
              simp [copyCount, List.countP_cons, copyCallAt]
            | dir scs =>
              rw [syncCore_succ_dir env base patterns del fuel scs dcs st hmk hl] at hrun
              have hnotin : ¬n ∈ ((scs.filter
                  (fun p => !(is_excluded (base ++ [p.1]) patterns base))).map Prod.fst) := by
                intro hmem
                obtain ⟨p, hp, hp1⟩ := List.mem_map.mp hmem
                have hkeep := (List.mem_filter.mp hp).2
                rw [hp1, hex] at hkeep
                exact Bool.noConfusion hkeep
              cases hloop : loopItems (syncCore env base patterns del fuel) env (.dir scs)
                  (dcs.map Prod.fst)
                  (scs.filter (fun p => !(is_excluded (base ++ [p.1]) patterns base))) dcs st with
              | error e2 =>
                rw [hloop] at hrun
                exact Except.noConfusion hrun
              | ok r =>
                obtain ⟨cur, st2⟩ := r
                rw [hloop] at hrun
                have hcount := loop_copyCount env (.dir scs) (dcs.map Prod.fst) n
                  (syncCore env base patterns del fuel)
                  (fun dst0 st0 d1 st1 hc => ih (some (.dir scs)) dst0 st0 d1 st1 hc)
                  _ dcs st cur st2 hnotin hloop
                cases del with
                | true =>
                  simp only [if_true] at hrun
                  cases hrun
                  rw [deletePass_copyCount, hcount]
                | false =>
                  simp only [Bool.false_eq_true, if_false] at hrun
                  cases hrun
                  exact hcount

/-- Copy and remove failures never stop the per-entry loop: over a flat
item list (no subdirectories, hence no recursion), the loop always
completes, whatever the copy/remove oracles do, as long as stats are
sound. -/
lemma loop_flat_total (env : Env) (srcTop : FSTree) (snap : List String)
    (hstat : ∀ k, env.statFail k = false) (recurse : SyncK) :
    ∀ (items cur : Listing) (st : St),
      (∀ p ∈ items, isFileT p.2 = true) →
      ∃ cur' st', loopItems recurse env srcTop snap items cur st = .ok (cur', st') := by
  intro items
  induction items with
  | nil => exact fun cur st _ => ⟨cur, st, rfl⟩
  | cons hd rest ih =>
    intro cur st hflat
    obtain ⟨n0, sc⟩ := hd
    obtain ⟨s, m, rfl⟩ : ∃ s m, sc = .file s m := by
      have := hflat (n0, sc) (by simp)
      cases sc with
      | file s m => exact ⟨s, m, rfl⟩
      | dir _ => simp [isFileT] at this
    have hflat' : ∀ p ∈ rest, isFileT p.2 = true := fun p hp => hflat p (by simp [hp])
    cases hsnap : snap.contains n0 with
    | false =>
      obtain ⟨cur', st', h⟩ := ih _ _ hflat'
      exact ⟨cur', st',
        by rw [loopItems_cons_absent recurse env srcTop snap n0 _ rest cur st hsnap]; exact h⟩
    | true =>
      cases hlk : lookupName n0 cur with
      | none =>
        obtain ⟨cur', st', h⟩ := ih _ _ hflat'
        exact ⟨cur', st',
          by rw [loopItems_cons_live_missing recurse env srcTop snap n0 _ rest cur st hsnap hlk]
             exact h⟩
      | some t =>
        cases t with
        | file s2 m2 =>
          cases hb : (s == s2 && decide (natDist m m2 < 1000)) with
          | true =>
            obtain ⟨cur', st', h⟩ := ih _ _ hflat'
            exact ⟨cur', st',
              by rw [loopItems_cons_files_eq recurse env srcTop snap n0 s m rest cur st
                   s2 m2 hsnap hlk (hstat n0) hb]
                 exact h⟩
          | false =>
            obtain ⟨cur', st', h⟩ := ih _ _ hflat'
            exact ⟨cur', st',
              by rw [loopItems_cons_files_ne recurse env srcTop snap n0 s m rest cur st
                   s2 m2 hsnap hlk (hstat n0) hb]
                 exact h⟩
        | dir dc =>
          obtain ⟨cur', st', h⟩ := ih _ _ hflat'
          exact ⟨cur', st',
            by rw [loopItems_cons_file_dir recurse env srcTop snap n0 s m rest cur st dc
                 hsnap hlk]
               exact h⟩

/-- A one-level (flat-source) run always completes, whatever the
copy/remove/listing oracles do, as long as the destination mkdir and the
stat calls are sound. -/
lemma syncCore_flat_total (env : Env) (base patterns : List String) (del : Bool)
    (scs : Listing) (dst : Option FSTree) (st : St)
    (hstat : ∀ k, env.statFail k = false) (hmk : env.mkdirFail = false)
    (hdst : ∀ s m, ¬dst = some (.file s m))
    (hflat : ∀ p ∈ scs, isFileT p.2 = true) :
    ∃ d' st', syncCore env base patterns del 1 (some (.dir scs)) dst st = .ok (d', st') := by
  have hdir : ∃ dcs : Listing, syncCore env base patterns del 1 (some (.dir scs)) dst st
      = syncCore env base patterns del 1 (some (.dir scs)) (some (.dir dcs)) st := by
    cases dst with
    | none => exact ⟨[], syncCore_none_dst env base patterns del 1 (.dir scs) st⟩
    | some t =>
      cases t with
      | file s m => exact absurd rfl (hdst s m)
      | dir dcs => exact ⟨dcs, rfl⟩
  obtain ⟨dcs, heq⟩ := hdir
  rw [heq]
  cases hl : env.listFail with
  | true =>
    exact ⟨_, _, syncCore_succ_listFail env base patterns del 0 (.dir scs) (some (.dir dcs)) st
      hmk (fun s m h => by cases h) hl⟩
  | false =>
    obtain ⟨cur', st', hloop⟩ := loop_flat_total env (.dir scs) (dcs.map Prod.fst) hstat
      (syncCore env base patterns del 0)
      (scs.filter (fun p => !(is_excluded (base ++ [p.1]) patterns base))) dcs st
      (fun p hp => hflat p (List.mem_of_mem_filter hp))
    cases del with
    | true =>
      exact ⟨_, _, syncCore_succ_dir_ok_del env base patterns 0 scs dcs st cur' st'
        hmk hl hloop⟩
    | false =>
      exact ⟨_, _, syncCore_succ_dir_ok_nodel env base patterns 0 scs dcs st cur' st'
        hmk hl hloop⟩

/-- The line-38 slip as a general divergence fact: whenever the first
exclusion-filtered source child is a directory that also exists as a
directory at the destination, `sync_recursive` of sync_logic.py re-enters
itself on the unchanged top-level pair and exhausts any recursion budget:
the run raises `RecursionError` for every fuel. -/
lemma syncCore_self_recursion_diverges
    (env : Env) (base patterns : List String) (del : Bool)
    (scs dcs : Listing) (n : String) (sa : Listing) (rest : List (String × FSTree)) (b : Listing)
    (hMk : env.mkdirFail = false) (hList : env.listFail = false)
    (hItems : scs.filter (fun p => !(is_excluded (base ++ [p.1]) patterns base))
        = (n, .dir sa) :: rest)
    (hSnap : (dcs.map Prod.fst).contains n = true)
    (hLook : lookupName n dcs = some (.dir b)) :
    ∀ fuel st, syncCore env base patterns del fuel (some (.dir scs)) (some (.dir dcs)) st
      = .error .recursionDepth := by
  intro fuel
  induction fuel with
  | zero => intro st; rfl
  | succ m ih =>
    intro st
    simp only [syncCore, childrenOrD, hMk, hList, hItems, loopItems, hSnap, hLook, ih st]
    rfl

/-! # Claim theorems -/

/-- Claim C2: the claimed child-pair recursion does not happen in
`sync_logic.py`: with source `d/f` and the directory `d` already present at
the destination, the engine re-enters itself on the same top-level task at
line 38, so the nested file `f` is never synchronized and the run raises
`RecursionError` whatever the recursion budget; the earlier `app1.py`
engine (line 223) recurses into the child pair and does synchronize
`d/f`. -/
theorem C2_child_pair_recursion :
    (∀ fuel st, syncCore envOk [] [] true fuel
        (some (.dir [("d", .dir [("f", .file 1 0)])])) (some (.dir [("d", .dir [])])) st
      = .error .recursionDepth) ∧
    syncApp1 [] true 9
        (some (.dir [("d", .dir [("f", .file 1 0)])])) (some (.dir [("d", .dir [])]))
      = .ok (some (.dir [("d", .dir [("f", .file 1 0)])])) := by
  constructor
  · exact fun fuel st =>
      syncCore_self_recursion_diverges envOk [] [] true
        [("d", .dir [("f", .file 1 0)])] [("d", .dir [])] "d" [("f", .file 1 0)] [] []
        rfl rfl rfl rfl rfl fuel st
  · rfl

/-- Claim C7 (amended): for a flat source tree — every child a regular
file, with distinct names — and no I/O failures, mirroring twice with an
unchanged source leaves the second run with zero copies, zero deletions
and zero errors: it returns the first run's destination unchanged together
with a pristine run state. -/
theorem C7_flat_idempotence (base patterns : List String) (del : Bool)
    (scs dcs : Listing)
    (hflat : ∀ p ∈ scs, isFileT p.2 = true)
    (hnodup : (scs.map Prod.fst).Nodup) :
    ∃ d1 st1,
      syncCore envOk base patterns del 1 (some (.dir scs)) (some (.dir dcs)) St.init
        = .ok (d1, st1) ∧
      syncCore envOk base patterns del 1 (some (.dir scs)) d1 St.init
        = .ok (d1, St.init) := by
  set items := scs.filter (fun p => !(is_excluded (base ++ [p.1]) patterns base)) with hitems
  have hflatI : ∀ p ∈ items, isFileT p.2 = true :=
    fun p hp => hflat p (List.mem_of_mem_filter hp)
  have hnodupI : (items.map Prod.fst).Nodup :=
    hnodup.sublist (List.Sublist.map Prod.fst (List.filter_sublist scs))
  obtain ⟨cur', st', hrun, hsync, hpres, hsome⟩ :=
    loop_flat_run (syncCore envOk base patterns del 0) (.dir scs) dcs items dcs St.init
      hflatI hnodupI (fun p _ => rfl)
  cases del with
  | false =>
    refine ⟨some (.dir cur'), st',
      syncCore_succ_dir_ok_nodel envOk base patterns 0 scs dcs St.init cur' st' rfl rfl hrun,
      syncCore_succ_dir_ok_nodel envOk base patterns 0 scs cur' St.init cur' St.init rfl rfl
        (loop_flat_synced (syncCore envOk base patterns false 0) (.dir scs) cur' items St.init
          hsync)⟩
  | true =>
    set cur2 := (deletePass envOk (items.map Prod.fst) (dcs.map Prod.fst) cur' st').1
      with hcur2
    refine ⟨some (.dir cur2),
      (deletePass envOk (items.map Prod.fst) (dcs.map Prod.fst) cur' st').2,
      syncCore_succ_dir_ok_del envOk base patterns 0 scs dcs St.init cur' st' rfl rfl hrun, ?_⟩
    have hlook2 : ∀ k, lookupName k cur2
        = if ((dcs.map Prod.fst).contains k && !((items.map Prod.fst).contains k)) = true
          then none else lookupName k cur' :=
      fun k => deletePass_lookup (items.map Prod.fst) (dcs.map Prod.fst) cur' st' k
    -- after the deletion pass, every item still has its synced file
    have hsync2 : ∀ p ∈ items, ∃ s m s' m', p.2 = .file s m ∧
        lookupName p.1 cur2 = some (.file s' m') ∧ s = s' ∧ natDist m m' < 1000 := by
      intro p hp
      obtain ⟨s, m, s', m', h1, h2, h3, h4⟩ := hsync p hp
      refine ⟨s, m, s', m', h1, ?_, h3, h4⟩
      have hcont : ((items.map Prod.fst).contains p.1) = true :=
        List.elem_iff.mpr (List.mem_map_of_mem Prod.fst hp)
      have hcond : (((dcs.map Prod.fst).contains p.1)
          && !((items.map Prod.fst).contains p.1)) = false := by
        rw [hcont]; simp
      rw [hlook2 p.1, hcond, if_neg Bool.false_ne_true]
      exact h2
    -- every surviving destination name is an item name
    have hcover : ∀ k ∈ cur2.map Prod.fst, ((items.map Prod.fst).contains k) = true := by
      intro k hk
      have hks : (lookupName k cur2).isSome = true := by
        rw [lookupName_isSome_eq_contains]
        exact List.elem_iff.mpr hk
      rw [hlook2 k] at hks
      cases hic : ((items.map Prod.fst).contains k) with
      | true => rfl
      | false =>
        exfalso
        rw [hic] at hks
        cases hdc : ((dcs.map Prod.fst).contains k) with
        | true =>
          rw [hdc] at hks
          simp at hks
        | false =>
          rw [hdc] at hks
          simp only [Bool.not_false, Bool.false_and, Bool.false_eq_true, if_false] at hks
          rcases hsome k hks with h | h
          · rw [lookupName_isSome_eq_contains] at h
            rw [h] at hdc
            exact Bool.noConfusion hdc
          · have hc2 : ((items.map Prod.fst).contains k) = true := List.elem_iff.mpr h
            rw [hc2] at hic
            exact Bool.noConfusion hic
    have hstep2 := syncCore_succ_dir_ok_del envOk base patterns 0 scs cur2 St.init cur2 St.init
      rfl rfl
      (loop_flat_synced (syncCore envOk base patterns true 0) (.dir scs) cur2 items St.init
        hsync2)
    rw [deletePass_skip (items.map Prod.fst) (cur2.map Prod.fst) cur2 St.init hcover] at hstep2
    exact hstep2

/-- Witness for C7 at a concrete flat task: one source file, one stale
destination file, delete-extra on. -/
theorem C7_flat_idempotence_witness :
    ∃ d1 st1,
      syncCore envOk [] ["*.log"] true 1
          (some (.dir [("a.txt", .file 3 40)])) (some (.dir [("old.bin", .file 9 2)])) St.init
        = .ok (d1, st1) ∧
      syncCore envOk [] ["*.log"] true 1
          (some (.dir [("a.txt", .file 3 40)])) d1 St.init
        = .ok (d1, St.init) :=
  C7_flat_idempotence [] ["*.log"] true [("a.txt", .file 3 40)] [("old.bin", .file 9 2)]
    (by intro p hp; simp at hp; rw [hp]; rfl) (by simp)

/-- Counterexample to C7 as stated: with a source containing the
subdirectory `d`, the first run copies the whole subtree, and the second
run — far from performing zero copies and zero deletions — never completes:
it dies with `RecursionError` at Python's default 1000-frame budget (the
helper lemma shows the same for every budget). -/
theorem C7_second_run_diverges :
    syncCore envOk [] [] true 1
        (some (.dir [("d", .dir [("f", .file 2 5)])])) (some (.dir [])) St.init
      = .ok (some (.dir [("d", .dir [("f", .file 2 5)])]),
             ⟨0, 0, 0, [.copiedTree "d"]⟩) ∧
    syncCore envOk [] [] true 1000
        (some (.dir [("d", .dir [("f", .file 2 5)])]))
        (some (.dir [("d", .dir [("f", .file 2 5)])])) St.init
      = .error .recursionDepth := by
  constructor
  · rfl
  · exact syncCore_self_recursion_diverges envOk [] [] true
      [("d", .dir [("f", .file 2 5)])] [("d", .dir [("f", .file 2 5)])] "d"
      [("f", .file 2 5)] [] [("f", .file 2 5)] rfl rfl rfl rfl rfl 1000 St.init

/-- Claim C9: with delete-extra off, a mirror run that completes leaves
every destination entry whose name is not among the source's children
completely unchanged (whole subtree), in any failure environment. -/
theorem C9_no_delete_frame (env : Env) (base patterns : List String)
    (scs dcs : Listing) (fuel : Nat) (st : St) (n : String)
    (d' : Option FSTree) (st' : St)
    (hn : ((scs.map Prod.fst).contains n) = false)
    (hrun : syncCore env base patterns false fuel (some (.dir scs)) (some (.dir dcs)) st
      = .ok (d', st')) :
    ∃ cur', d' = some (.dir cur') ∧ lookupName n cur' = lookupName n dcs :=
  syncCore_preserves env base patterns n fuel scs dcs st d' st' hn hrun

/-- Witness for C9: the spec's scenario — destination holds the extra file
`stale.bin`, delete-extra is false, and after the run `stale.bin` is
untouched. -/
theorem C9_no_delete_frame_witness :
    ∃ cur', (some (.dir [("stale.bin", .file 7 3), ("a.txt", .file 1 0)]) : Option FSTree)
        = some (.dir cur')
      ∧ lookupName "stale.bin" cur' = lookupName "stale.bin" [("stale.bin", .file 7 3)] :=
  C9_no_delete_frame envOk [] [] [("a.txt", .file 1 0)] [("stale.bin", .file 7 3)] 1 St.init
    "stale.bin" (some (.dir [("stale.bin", .file 7 3), ("a.txt", .file 1 0)]))
    ⟨1, 0, 1, [.copiedFile "a.txt"]⟩ rfl rfl

/-- Counterexample to Claim C1 as stated: in the claim's own scenario
(source `x.txt` and `logs/a.log`, pattern `*.log`, empty destination,
delete-extra on) the relative path `logs/a.log` matches the exclusion
pattern, yet after the run the destination does contain `logs/a.log` —
the non-excluded directory `logs` was absent at the destination and was
copied wholesale by `shutil.copytree`, which applies no exclusion
filter (and counts no files: copied_files is 1, for `x.txt` alone). -/
theorem C1_excluded_file_copied_in_subtree :
    is_excluded ["logs", "a.log"] ["*.log"] [] = true ∧
    syncCore envOk [] ["*.log"] true 9
        (some (.dir [("x.txt", .file 10 0), ("logs", .dir [("a.log", .file 3 0)])]))
        (some (.dir [])) St.init
      = .ok (some (.dir [("x.txt", .file 10 0), ("logs", .dir [("a.log", .file 3 0)])]),
             ⟨1, 0, 1, [.copiedTree "logs", .copiedFile "x.txt"]⟩) ∧
    lookupName "logs" [("x.txt", FSTree.file 10 0), ("logs", FSTree.dir [("a.log", FSTree.file 3 0)])]
      = some (.dir [("a.log", .file 3 0)]) :=
  ⟨rfl, rfl, rfl⟩

/-- Claim C1 (amended): exclusion is applied to the immediate children
listed at each level: an entry name whose relative path is excluded never
receives any copy attempt during a completed run (its copy-event count is
unchanged, in every environment); but files underneath a non-excluded
directory that is copied wholesale are not filtered.  In the claim's
scenario the run completes with `copied_files = 1`, `errors = 0`, and the
destination holding `x.txt` AND `logs/a.log`. -/
theorem C1_exclusion_per_level :
    (∀ (env : Env) (base patterns : List String) (del : Bool) (n : String) (fuel : Nat)
        (src dst : Option FSTree) (st : St) (d' : Option FSTree) (st' : St),
      is_excluded (base ++ [n]) patterns base = true →
      syncCore env base patterns del fuel src dst st = .ok (d', st') →
      copyCount n st' = copyCount n st) ∧
    syncCore envOk [] ["*.log"] true 9
        (some (.dir [("x.txt", .file 10 0), ("logs", .dir [("a.log", .file 3 0)])]))
        (some (.dir [])) St.init
      = .ok (some (.dir [("x.txt", .file 10 0), ("logs", .dir [("a.log", .file 3 0)])]),
             ⟨1, 0, 1, [.copiedTree "logs", .copiedFile "x.txt"]⟩) :=
  ⟨fun env base patterns del n fuel src dst st d' st' hex hrun =>
    syncCore_no_copy_excluded env base patterns del n hex fuel src dst st d' st' hrun,
   rfl⟩

/-- Witness for C1 at a concrete run: the excluded immediate child
`b.log` gets no copy attempt while its sibling `a.txt` is copied. -/
theorem C1_exclusion_per_level_witness :
    copyCount "b.log" ⟨1, 0, 1, [.copiedFile "a.txt"]⟩ = copyCount "b.log" St.init :=
  C1_exclusion_per_level.1 envOk [] ["*.log"] true "b.log" 1
    (some (.dir [("b.log", .file 1 0), ("a.txt", .file 2 0)])) (some (.dir [])) St.init
    (some (.dir [("a.txt", .file 2 0)])) ⟨1, 0, 1, [.copiedFile "a.txt"]⟩ rfl rfl

/-- Claim C8: the `should_delete` pass iterates the raw destination
snapshot and removes exactly the names absent from the exclusion-filtered
source listing: lookup-wise, an entry survives iff its name is outside the
snapshot or among the filtered source names.  In particular a
destination-only entry that itself matches an exclusion pattern
(`x.log` under `*.log`) is still removed by a run. -/
theorem C8_delete_extra_pass :
    (∀ (srcNames snap : List String) (cur : Listing) (st : St) (k : String),
      lookupName k (deletePass envOk srcNames snap cur st).1
        = if (snap.contains k && !(srcNames.contains k)) = true then none
          else lookupName k cur) ∧
    is_excluded ["x.log"] ["*.log"] [] = true ∧
    syncCore envOk [] ["*.log"] true 1
        (some (.dir [("keep.txt", .file 1 0)])) (some (.dir [("x.log", .file 2 0)])) St.init
      = .ok (some (.dir [("keep.txt", .file 1 0)]),
             ⟨1, 0, 1, [.removedEntry "x.log", .copiedFile "keep.txt"]⟩) :=
  ⟨fun srcNames snap cur st k => deletePass_lookup srcNames snap cur st k, rfl, rfl⟩

/-- Counterexample to Claim C3 as stated: copying the whole directory
subtree `d` (absent at the destination) brings the file `d/f` to the
destination, yet `metrics.copied_files` stays 0 and `update_progress` is
never invoked — the `shutil.copytree` branch of `safe_copy` counts
nothing. -/
theorem C3_subtree_files_not_counted :
    syncCore envOk [] [] true 1
        (some (.dir [("d", .dir [("f", .file 4 7)])])) (some (.dir [])) St.init
      = .ok (some (.dir [("d", .dir [("f", .file 4 7)])]), ⟨0, 0, 0, [.copiedTree "d"]⟩) ∧
    lookupName "d" [("d", FSTree.dir [("f", FSTree.file 4 7)])]
      = some (.dir [("f", .file 4 7)]) :=
  ⟨rfl, rfl⟩

/-- Claim C3 (amended): every successful single-file copy through the
`shutil.copy2` branch increments `copied_files` by exactly one and invokes
`update_progress` once; a whole-directory copy emits one log event and
leaves the counters untouched; every caught copy or delete failure
increments `errors` by exactly one; and such failures never stop the walk:
a one-level (flat-source) run completes whatever the copy/remove/listing
oracles do, as long as mkdir and stat are sound. -/
theorem C3_copy_accounting :
    (∀ (env : Env) (n : String) (s m : Nat) (dstE : Option FSTree) (st : St),
      env.copyFail n = false → (∀ dc, ¬dstE = some (.dir dc)) →
      safe_copy env n (.file s m) dstE st
        = (some (.file s m),
           { st with copied := st.copied + 1, progress := st.progress + 1,
                     events := .copiedFile n :: st.events })) ∧
    (∀ (env : Env) (n : String) (sc : FSTree) (dstE : Option FSTree) (st : St),
      env.copyFail n = true →
      safe_copy env n sc dstE st
        = (dstE, { st with errors := st.errors + 1, events := .copyFailed n :: st.events })) ∧
    (∀ (env : Env) (n : String) (cs : Listing) (st : St),
      env.copyFail n = false →
      safe_copy env n (.dir cs) none st
        = (some (.dir cs), { st with events := .copiedTree n :: st.events })) ∧
    (∀ (env : Env) (n : String) (entry : Option FSTree) (st : St),
      (env.removeFail n || entry.isNone) = true →
      safe_remove env n entry st
        = (false, { st with errors := st.errors + 1,
                            events := .removeFailed n :: st.events })) ∧
    (∀ (env : Env) (base patterns : List String) (del : Bool) (scs : Listing)
        (dst : Option FSTree) (st : St),
      (∀ k, env.statFail k = false) → env.mkdirFail = false →
      (∀ s m, ¬dst = some (.file s m)) →
      (∀ p ∈ scs, isFileT p.2 = true) →
      ∃ d' st', syncCore env base patterns del 1 (some (.dir scs)) dst st = .ok (d', st')) := by
  refine ⟨?_, ?_, ?_, ?_, ?_⟩
  · intro env n s m dstE st h hd
    cases dstE with
    | none => simp [safe_copy, h]
    | some t =>
      cases t with
      | file s2 m2 => simp [safe_copy, h]
      | dir dc => exact absurd rfl (hd dc)
  · intro env n sc dstE st h
    simp [safe_copy, h]
  · intro env n cs st h
    simp [safe_copy, h]
  · intro env n entry st h
    simp [safe_remove, h]
  · intro env base patterns del scs dst st hstat hmk hdst hflat
    exact syncCore_flat_total env base patterns del scs dst st hstat hmk hdst hflat

/-- Witness for C3: a concrete successful copy bumps the counters by one,
and a run in which every copy and every remove fails still completes. -/
theorem C3_copy_accounting_witness :
    safe_copy envOk "a" (.file 1 2) none St.init
      = (some (.file 1 2), ⟨1, 0, 1, [.copiedFile "a"]⟩) ∧
    ∃ d' st', syncCore ⟨fun _ => true, fun _ => true, fun _ => false, false, false⟩
        [] [] true 1
        (some (.dir [("x", .file 1 0), ("y", .file 2 0)])) (some (.dir [("z", .file 3 0)]))
        St.init
      = .ok (d', st') :=
  ⟨C3_copy_accounting.1 envOk "a" 1 2 none St.init rfl (fun dc h => Option.noConfusion h),
   C3_copy_accounting.2.2.2.2 ⟨fun _ => true, fun _ => true, fun _ => false, false, false⟩
     [] [] true [("x", .file 1 0), ("y", .file 2 0)] (some (.dir [("z", .file 3 0)])) St.init
     (fun k => rfl) rfl (fun s m h => by cases h)
     (by intro p hp; simp at hp; rcases hp with h | h <;> (rw [h]; rfl))⟩

/-- Counterexample to Claim C4 as stated: a failure of
`dst.mkdir(parents=True, exist_ok=True)` (sync_logic.py line 19, outside
every `try`) is not reported through the log callback and metrics — it
crosses the caller boundary as a synchronous exception. -/
theorem C4_mkdir_escapes :
    syncCore ⟨fun _ => false, fun _ => false, fun _ => false, false, true⟩ [] [] true 5
        (some (.dir [("a.txt", .file 1 0)])) (some (.dir [])) St.init
      = .error .mkdirFailed := rfl

/-- Claim C4 (amended): per-entry copy and delete failures and
directory-listing failures never raise to the caller — they are reported
only through the log events and the error counter; but a destination
`mkdir` failure (including a destination that exists as a file) and a
`stat` failure inside the file comparison do escape, as does
`RecursionError`.  Formally: once mkdir/stat failures are ruled out and
the top-level destination is not a file, the only escaping exception is
`RecursionError`, whatever the copy/remove/listing oracles do. -/
theorem C4_error_containment (env : Env) (base patterns : List String) (del : Bool)
    (fuel : Nat) (src dst : Option FSTree) (st : St) (e : PyErr)
    (hmk : env.mkdirFail = false) (hstat : ∀ k, env.statFail k = false)
    (hdst : ∀ s m, ¬dst = some (.file s m))
    (hrun : syncCore env base patterns del fuel src dst st = .error e) :
    e = .recursionDepth :=
  syncCore_errors env base patterns del hmk hstat fuel src dst st e hdst hrun

/-- Witness for C4 at a concrete input: with every copy and remove failing
but mkdir and stat sound, an error that does escape is `RecursionError`
(here: the line-38 self-recursion exhausting a budget of 3 frames). -/
theorem C4_error_containment_witness : PyErr.recursionDepth = PyErr.recursionDepth :=
  C4_error_containment ⟨fun _ => true, fun _ => true, fun _ => false, false, false⟩ [] [] true 3
    (some (.dir [("d", .dir [("f", .file 1 0)])])) (some (.dir [("d", .dir [])])) St.init
    .recursionDepth rfl (fun k => rfl) (fun s m h => by cases h) rfl

/-- Claim C5: `files_are_equal` returns false when the second file does not
exist, otherwise (absent stat failures) it is true exactly when the byte
sizes match and the modification times differ by strictly less than one
second; and in an engine run, two same-size files 900 ms apart are skipped
while files 1500 ms apart are re-copied. -/
theorem C5_equality_heuristic :
    (∀ env n f1, files_are_equal env n f1 none = .ok false) ∧
    (∀ n s1 m1 s2 m2,
      files_are_equal envOk n (s1, m1) (some (.file s2 m2))
        = .ok (s1 == s2 && decide (natDist m1 m2 < 1000))) ∧
    syncCore envOk [] [] true 1 (some (.dir [("a", .file 5 0)]))
        (some (.dir [("a", .file 5 900)])) St.init
      = .ok (some (.dir [("a", .file 5 900)]), St.init) ∧
    syncCore envOk [] [] true 1 (some (.dir [("a", .file 5 0)]))
        (some (.dir [("a", .file 5 1500)])) St.init
      = .ok (some (.dir [("a", .file 5 0)]), ⟨1, 0, 1, [.copiedFile "a"]⟩) := by
  refine ⟨fun env n f1 => rfl, fun n s1 m1 s2 m2 => rfl, rfl, rfl⟩

/-- Claim C6: contrary to the claim, the drive-root membership test of
`validate_paths` can never fire: the cleaned destination has its trailing
separators stripped while every entry of the `dangerous` list ends in a
backslash, so no destination whatsoever — in particular the Windows drive
root `C:\` — is rejected as a drive root. -/
theorem C6_drive_root_dead :
    (∀ dstS : List Char, isDriveRootHit dstS = false) ∧
    validate_paths ⟨"D:\\data".toList, true, "D:\\data".toList⟩
        ⟨"C:\\".toList, true, "C:\\".toList⟩ = .ok () := by
  constructor
  · intro dstS
    by_contra hne
    have hmem : upperL (rstripSlashes dstS) ∈ dangerous.map upperL := by
      have : (dangerous.map upperL).contains (upperL (rstripSlashes dstS)) = true := by
        revert hne
        unfold isDriveRootHit
        cases (dangerous.map upperL).contains (upperL (rstripSlashes dstS)) <;> simp
      exact List.elem_iff.mp this
    exact upper_rstrip_getLast_ne dstS (dangerousUpper_getLast _ hmem)
  · rfl

/-- Claim C10: serializing a `BackupTask` and reading it back preserves
name, source, destination and delete flag always, and the exclusion list
whenever it is non-empty; an empty exclusion list comes back as the
built-in default pattern set. -/
theorem C10_task_roundtrip (t : BackupTask) :
    (BackupTask.from_dict (BackupTask.to_dict t)).name = t.name ∧
    (BackupTask.from_dict (BackupTask.to_dict t)).source = t.source ∧
    (BackupTask.from_dict (BackupTask.to_dict t)).destination = t.destination ∧
    (BackupTask.from_dict (BackupTask.to_dict t)).delete_extra = t.delete_extra ∧
    (t.exclude_patterns ≠ [] →
      (BackupTask.from_dict (BackupTask.to_dict t)).exclude_patterns = t.exclude_patterns) ∧
    (t.exclude_patterns = [] →
      (BackupTask.from_dict (BackupTask.to_dict t)).exclude_patterns
        = DEFAULT_EXCLUDE_PATTERNS) := by
  obtain ⟨name, source, destination, pats, del⟩ := t
  refine ⟨rfl, rfl, rfl, ?_, ?_, ?_⟩
  · cases del <;> rfl
  · intro hne
    cases pats with
    | nil => exact absurd rfl hne
    | cons a l => rfl
  · intro he
    cases pats with
    | nil => rfl
    | cons a l => exact absurd he (by simp)

/-- Witness for C10 at concrete tasks: an empty exclusion list is replaced
by the default patterns, and a non-empty one round-trips unchanged. -/
theorem C10_task_roundtrip_witness :
    (BackupTask.from_dict (BackupTask.to_dict ⟨"docs", "C:\\s", "D:\\d", [], true⟩)).exclude_patterns
        = DEFAULT_EXCLUDE_PATTERNS ∧
    (BackupTask.from_dict (BackupTask.to_dict ⟨"docs", "C:\\s", "D:\\d", ["*.bak"], false⟩)).exclude_patterns
        = ["*.bak"] :=
  ⟨(C10_task_roundtrip ⟨"docs", "C:\\s", "D:\\d", [], true⟩).2.2.2.2.2 rfl,
   (C10_task_roundtrip ⟨"docs", "C:\\s", "D:\\d", ["*.bak"], false⟩).2.2.2.2.1 (by simp)⟩

end Servatio
